import Mathlib

/-
Verification of the data block manager of a log-structured serializer
(src/serializer/log/data_block_manager.cc), via a shallow embedding.

Machine integers are modelled as Nat/Int; the perfmon-backed statistics
old_total_blocks / old_garbage_blocks are Int so that the C++ decrements
are exact.  Pointer-linked containers (entry table, young queue, priority
queue, active-extent slots) are modelled by an association list keyed by
extent index plus lists of extent indices, which removes aliasing while
keeping every operation executable.
-/

namespace DBM

/-! ## Generic list helpers -/

/-- Replace the element at position `i`; out-of-range writes leave the list
unchanged (mirrors in-place array assignment). -/
def lset {α : Type} : List α → Nat → α → List α
  | [], _, _ => []
  | _ :: l, 0, v => v :: l
  | a :: l, n + 1, v => a :: lset l n v

/-- Read the element at position `i`, with default `d` out of range. -/
def lget {α : Type} (d : α) : List α → Nat → α
  | [], _ => d
  | a :: _, 0 => a
  | _ :: l, n + 1 => lget d l n

theorem length_lset {α : Type} (l : List α) (i : Nat) (v : α) :
    (lset l i v).length = l.length := by
  induction l generalizing i with
  | nil => rfl
  | cons a l ih =>
    cases i with
    | zero => rfl
    | succ n => simp [lset, ih]

theorem lget_lset_eq {α : Type} (d : α) (l : List α) (i : Nat) (v : α)
    (h : i < l.length) : lget d (lset l i v) i = v := by
  induction l generalizing i with
  | nil => simp at h
  | cons a l ih =>
    cases i with
    | zero => rfl
    | succ n => exact ih n (by simpa using h)

theorem lget_lset_ne {α : Type} (d : α) (l : List α) (i j : Nat) (v : α)
    (h : i ≠ j) : lget d (lset l i v) j = lget d l j := by
  induction l generalizing i j with
  | nil => rfl
  | cons a l ih =>
    cases i with
    | zero =>
      cases j with
      | zero => exact absurd rfl h
      | succ m => rfl
    | succ n =>
      cases j with
      | zero => rfl
      | succ m => exact ih n m (by omega)

/-! ## Garbage bitmap: bit = true means the slot is garbage -/

/-- Number of set (garbage) bits, `g_array.count()`. -/
def bcount : List Bool → Nat
  | [] => 0
  | true :: l => bcount l + 1
  | false :: l => bcount l

theorem bcount_le_length (l : List Bool) : bcount l ≤ l.length := by
  induction l with
  | nil => simp [bcount]
  | cons b l ih => cases b <;> simp [bcount] <;> omega

theorem bcount_replicate (n : Nat) : bcount (List.replicate n true) = n := by
  induction n with
  | zero => rfl
  | succ n ih => simpa [List.replicate, bcount] using ih

theorem bcount_lset_true (l : List Bool) (i : Nat)
    (hb : lget false l i = false) (hlen : i < l.length) :
    bcount (lset l i true) = bcount l + 1 := by
  induction l generalizing i with
  | nil => simp at hlen
  | cons b l ih =>
    cases i with
    | zero =>
      cases b with
      | false => simp [lset, bcount]
      | true => simp [lget] at hb
    | succ n =>
      have h1 := ih n (by simpa [lget] using hb) (by simpa using hlen)
      cases b with
      | false => simpa [lset, bcount] using h1
      | true => simp [lset, bcount, h1]

theorem bcount_lset_false (l : List Bool) (i : Nat)
    (hb : lget false l i = true) (hlen : i < l.length) :
    bcount l = bcount (lset l i false) + 1 := by
  induction l generalizing i with
  | nil => simp at hlen
  | cons b l ih =>
    cases i with
    | zero =>
      cases b with
      | true => simp [lset, bcount]
      | false => simp [lget] at hb
    | succ n =>
      have h1 := ih n (by simpa [lget] using hb) (by simpa using hlen)
      cases b with
      | false => simpa [lset, bcount] using h1
      | true => simp [lset, bcount]; omega

theorem bcount_pos_of_true (l : List Bool) (i : Nat)
    (hb : lget false l i = true) : 0 < bcount l := by
  induction l generalizing i with
  | nil => simp [lget] at hb
  | cons b l ih =>
    cases i with
    | zero =>
      cases b with
      | true => simp [bcount]
      | false => simp [lget] at hb
    | succ n =>
      have h1 := ih n (by simpa [lget] using hb)
      cases b with
      | false => simpa [bcount] using h1
      | true => simp [bcount]

/-! ## Association list keyed by extent index (the sparse entry table) -/

/-- Lookup by key (first occurrence). -/
def aGet {α : Type} : List (Nat × α) → Nat → Option α
  | [], _ => none
  | (k, v) :: l, q => if k = q then some v else aGet l q

/-- Replace the first binding of `k`, or prepend a fresh one. -/
def aSet {α : Type} : List (Nat × α) → Nat → α → List (Nat × α)
  | [], k, v => [(k, v)]
  | (k1, v1) :: l, k, v =>
    if k1 = k then (k, v) :: l else (k1, v1) :: aSet l k v

/-- Erase the first binding of `k`. -/
def aErase {α : Type} : List (Nat × α) → Nat → List (Nat × α)
  | [], _ => []
  | (k1, v1) :: l, k => if k1 = k then l else (k1, v1) :: aErase l k

/-- The table has no duplicate keys. -/
def keysNodup {α : Type} (l : List (Nat × α)) : Prop :=
  (l.map Prod.fst).Nodup

instance {α : Type} (l : List (Nat × α)) : Decidable (keysNodup l) := by
  unfold keysNodup; infer_instance

/-- Sum of an Int-valued contribution over all table entries. -/
def entrySum {α : Type} (f : α → Int) : List (Nat × α) → Int
  | [] => 0
  | (_, v) :: l => f v + entrySum f l

theorem aGet_aSet_eq {α : Type} (l : List (Nat × α)) (k : Nat) (v : α) :
    aGet (aSet l k v) k = some v := by
  induction l with
  | nil => simp [aGet, aSet]
  | cons p l ih =>
    obtain ⟨k1, v1⟩ := p
    by_cases h : k1 = k
    · simp [aSet, aGet, h]
    · simp [aSet, aGet, h, ih]

theorem keysNodup_cons {α : Type} {k1 : Nat} {v1 : α} {l : List (Nat × α)}
    (h : keysNodup ((k1, v1) :: l)) :
    k1 ∉ l.map Prod.fst ∧ keysNodup l := by
  unfold keysNodup at h ⊢
  rw [List.map_cons] at h
  exact List.nodup_cons.mp h

theorem aGet_aSet_ne {α : Type} (l : List (Nat × α)) (k q : Nat) (v : α)
    (h : k ≠ q) : aGet (aSet l k v) q = aGet l q := by
  induction l with
  | nil => simp [aGet, aSet, h]
  | cons p l ih =>
    obtain ⟨k1, v1⟩ := p
    by_cases h1 : k1 = k
    · subst h1; simp [aSet, aGet, h]
    · simp [aSet, aGet, h1, ih]

theorem aGet_aErase_ne {α : Type} (l : List (Nat × α)) (k q : Nat)
    (h : k ≠ q) : aGet (aErase l k) q = aGet l q := by
  induction l with
  | nil => rfl
  | cons p l ih =>
    obtain ⟨k1, v1⟩ := p
    by_cases h1 : k1 = k
    · subst h1; simp [aErase, aGet, h]
    · simp [aErase, aGet, h1, ih]

theorem aGet_none_iff_not_mem_keys {α : Type} (l : List (Nat × α)) (k : Nat) :
    aGet l k = none ↔ k ∉ l.map Prod.fst := by
  induction l with
  | nil => simp [aGet]
  | cons p l ih =>
    obtain ⟨k1, v1⟩ := p
    by_cases h : k1 = k
    · subst h; simp [aGet]
    · rw [List.map_cons, List.mem_cons]
      simp only [aGet, if_neg h, ih]
      constructor
      · intro hn hc
        rcases hc with hc | hc
        · exact h hc.symm
        · exact hn hc
      · intro hn hc
        exact hn (Or.inr hc)

theorem aGet_aErase_eq {α : Type} (l : List (Nat × α)) (k : Nat)
    (hnd : keysNodup l) : aGet (aErase l k) k = none := by
  induction l with
  | nil => rfl
  | cons p l ih =>
    obtain ⟨k1, v1⟩ := p
    obtain ⟨hk1, hnd'⟩ := keysNodup_cons hnd
    by_cases h1 : k1 = k
    · subst h1
      simp only [aErase, if_pos rfl]
      exact (aGet_none_iff_not_mem_keys l k1).mpr hk1
    · simp [aErase, aGet, h1, ih hnd']

theorem keys_aSet_present {α : Type} (l : List (Nat × α)) (k : Nat) (v : α)
    (h : (aGet l k).isSome) :
    (aSet l k v).map Prod.fst = l.map Prod.fst := by
  induction l with
  | nil => simp [aGet] at h
  | cons p l ih =>
    obtain ⟨k1, v1⟩ := p
    by_cases h1 : k1 = k
    · subst h1; simp [aSet]
    · simp only [aGet, if_neg h1] at h
      simp [aSet, h1, ih h]

theorem keys_aSet_absent {α : Type} (l : List (Nat × α)) (k : Nat) (v : α)
    (h : aGet l k = none) :
    (aSet l k v).map Prod.fst = l.map Prod.fst ++ [k] := by
  induction l with
  | nil => simp [aSet]
  | cons p l ih =>
    obtain ⟨k1, v1⟩ := p
    by_cases h1 : k1 = k
    · subst h1; simp [aGet] at h
    · simp only [aGet, if_neg h1] at h
      simp [aSet, h1, ih h]

theorem keysNodup_aSet {α : Type} (l : List (Nat × α)) (k : Nat) (v : α)
    (hnd : keysNodup l) : keysNodup (aSet l k v) := by
  cases h : aGet l k with
  | some w =>
    unfold keysNodup
    rw [keys_aSet_present l k v (by simp [h])]
    exact hnd
  | none =>
    unfold keysNodup
    rw [keys_aSet_absent l k v h]
    refine List.Nodup.append hnd (List.nodup_singleton k) ?_
    intro a ha hb
    rw [List.mem_singleton] at hb
    subst hb
    exact (aGet_none_iff_not_mem_keys l a).mp h ha

theorem keys_aErase_sublist {α : Type} (l : List (Nat × α)) (k : Nat) :
    ((aErase l k).map Prod.fst).Sublist (l.map Prod.fst) := by
  induction l with
  | nil => simp [aErase]
  | cons p l ih =>
    obtain ⟨k1, v1⟩ := p
    by_cases h1 : k1 = k
    · simp only [aErase, if_pos h1]
      exact (List.sublist_cons_self _ _)
    · simp only [aErase, if_neg h1, List.map_cons]
      exact ih.cons₂ _

theorem keysNodup_aErase {α : Type} (l : List (Nat × α)) (k : Nat)
    (hnd : keysNodup l) : keysNodup (aErase l k) :=
  (keys_aErase_sublist l k).nodup hnd

theorem entrySum_aSet_present {α : Type} (f : α → Int) (l : List (Nat × α))
    (k : Nat) (v0 v : α) (h : aGet l k = some v0) (hnd : keysNodup l) :
    entrySum f (aSet l k v) = entrySum f l + f v - f v0 := by
  induction l with
  | nil => simp [aGet] at h
  | cons p l ih =>
    obtain ⟨k1, v1⟩ := p
    obtain ⟨hk1, hnd'⟩ := keysNodup_cons hnd
    by_cases h1 : k1 = k
    · subst h1
      simp only [aGet, if_pos rfl, eq_self_iff_true, if_true] at h
      simp only [Option.some.injEq] at h
      subst h
      simp [aSet, entrySum]
      ring
    · simp only [aGet, if_neg h1] at h
      simp [aSet, h1, entrySum, ih h hnd']
      ring

theorem entrySum_aSet_absent {α : Type} (f : α → Int) (l : List (Nat × α))
    (k : Nat) (v : α) (h : aGet l k = none) :
    entrySum f (aSet l k v) = f v + entrySum f l := by
  induction l with
  | nil => simp [aSet, entrySum]
  | cons p l ih =>
    obtain ⟨k1, v1⟩ := p
    by_cases h1 : k1 = k
    · subst h1; simp [aGet] at h
    · simp only [aGet, if_neg h1] at h
      simp [aSet, h1, entrySum, ih h]
      ring

theorem entrySum_aErase {α : Type} (f : α → Int) (l : List (Nat × α))
    (k : Nat) (v0 : α) (h : aGet l k = some v0) (hnd : keysNodup l) :
    entrySum f (aErase l k) = entrySum f l - f v0 := by
  induction l with
  | nil => simp [aGet] at h
  | cons p l ih =>
    obtain ⟨k1, v1⟩ := p
    obtain ⟨hk1, hnd'⟩ := keysNodup_cons hnd
    by_cases h1 : k1 = k
    · subst h1
      simp only [aGet, if_pos rfl, eq_self_iff_true, if_true] at h
      simp only [Option.some.injEq] at h
      subst h
      simp [aErase, entrySum]
    · simp only [aGet, if_neg h1] at h
      simp [aErase, h1, entrySum, ih h hnd']
      ring

/-! ## Data model -/

/-- The lifecycle states of a `gc_entry`. -/
inductive EntryState
  | reconstructing
  | active
  | young
  | old
  | inGc
deriving DecidableEq

/-- One record per live extent (`gc_entry`).  `garray` is the garbage
bitmap: bit true means the slot is garbage. -/
structure GCEntry where
  offset : Nat
  state : EntryState
  garray : List Bool
  timestamp : Nat
deriving DecidableEq

/-- The steps of the GC state machine (`gc_step`). -/
inductive GCStepKind
  | reconstruct
  | ready
  | readyLockAvailable
  | read
  | readLockAvailable
  | write
deriving DecidableEq

/-- The manager lifecycle state (`state_t`). -/
inductive MgrState
  | unstarted
  | ready
  | shuttingDown
  | shutDown
deriving DecidableEq

/-- One element of the GC rewrite batch (`gc_write_t`): the block id read
from the block's on-disk header and the payload starting after the header.
The payload is an opaque token naming the post-header bytes of the slot. -/
structure GcWrite where
  blockId : Nat
  payload : Nat
deriving DecidableEq

/-- Externally visible effects of an operation. -/
inductive Event
  | readIssued (offset len : Nat)
  | writeIssued (offset len : Nat)
  | lockRequested
  | mutexUnlocked
  | extentReleased (extentId : Nat)
  | writeGcsCalled (batch : List GcWrite)
  | shutdownCbInvoked
  | gcDisabledCbInvoked
deriving DecidableEq

/-- Static and dynamic configuration.  `gcYoungMaxSize` and
`gcYoungTimelimitMicros` are GC_YOUNG_EXTENT_MAX_SIZE and
GC_YOUNG_EXTENT_TIMELIMIT_MICROS; `maxActive` is MAX_ACTIVE_DATA_EXTENTS
and `numActive` is num_active_data_extents. -/
structure Config where
  blockSize : Nat
  bpe : Nat
  maxActive : Nat
  numActive : Nat
  gcYoungMaxSize : Nat
  gcYoungTimelimitMicros : Nat
  gcLowRatio : Rat
  gcHighRatio : Rat
deriving DecidableEq

/-- extent_size in bytes: blocks_per_extent times the serialized block size. -/
def Config.extentSize (c : Config) : Nat := c.bpe * c.blockSize

/-- Modelled from the spec: `extent_index(offset)` of the missing header,
the extent-table index of a byte offset. -/
def Config.extentIndex (c : Config) (off : Nat) : Nat := off / c.extentSize

/-- Modelled from the spec: `block_index(offset)` of the missing header,
the block slot of a byte offset inside its extent. -/
def Config.blockIndex (c : Config) (off : Nat) : Nat :=
  off % c.extentSize / c.blockSize

/-- Complete manager state.  Queues and slots hold extent indices into
`entries`, removing C++ pointer aliasing.  `freshExtents` is the stream of
extent indices the extent manager will hand out; `heldExtents` is its
held_extents() count; `gcBlocks` is the per-slot view of the GC scratch
buffer as pairs of on-disk header block id and payload token. -/
structure DBMState where
  entries : List (Nat × GCEntry)
  activeExtents : List (Option Nat)
  blocksInActiveExtent : List Nat
  nextActiveExtent : Nat
  youngQueue : List Nat
  reconstructedExtents : List Nat
  gcPq : List Nat
  oldTotalBlocks : Int
  oldGarbageBlocks : Int
  gcStep : GCStepKind
  currentEntry : Option Nat
  refcount : Nat
  shouldBeStopped : Bool
  gcDisableCbStored : Bool
  shutdownCbStored : Bool
  mgrState : MgrState
  freshExtents : List Nat
  heldExtents : Nat
  gcBlocks : List (Nat × Nat)
  gcWrites : List GcWrite
deriving DecidableEq

/-- The data-block-manager part of the metablock (`metablock_mixin_t`):
per slot, the active extent offset (none encodes NULL_OFFSET) and the
block fill count. -/
structure Metablock where
  activeExtentOffsets : List (Option Nat)
  blocksInActive : List Nat
deriving DecidableEq

/-! ## Statistics and policy predicates -/

/-- garbage_ratio(): 0 when old_total_blocks is 0, else
old_garbage_blocks / (old_total_blocks + held_extents * blocks_per_extent).
The C++ float arithmetic is modelled over the rationals. -/
def garbageRatio (c : Config) (s : DBMState) : Rat :=
  if s.oldTotalBlocks = 0 then 0
  else (s.oldGarbageBlocks : Rat) /
    ((s.oldTotalBlocks : Rat) + ((s.heldExtents * c.bpe : Nat) : Rat))

/-- should_we_keep_gcing: GC not disabled and ratio above the low mark.
The entry argument of the C++ function is unused. -/
def shouldWeKeepGcing (c : Config) (s : DBMState) : Bool :=
  !s.shouldBeStopped && decide (garbageRatio c s > c.gcLowRatio)

/-- do_we_want_to_start_gcing: GC not disabled and ratio above the high mark. -/
def doWeWantToStartGcing (c : Config) (s : DBMState) : Bool :=
  !s.shouldBeStopped && decide (garbageRatio c s > c.gcHighRatio)

/-! ## Entry destruction -/

/-- Modelled from the spec: gc_entry destruction (the destructor lives in
the missing header) removes the record from the entry table and releases
the underlying extent back to the extent manager. -/
def destroyEntry (s : DBMState) (id : Nat) : DBMState × Event :=
  ({ s with entries := aErase s.entries id }, Event.extentReleased id)

/-! ## mark_garbage -/

/-- data_block_manager_t::mark_garbage.  `none` models a failed rassert or
an unreachable branch.  In the destruction branch the entry is removed
from its container (young queue, priority queue with both statistics
decremented, or the current GC victim pointer) and then destroyed, which
releases its extent.  In the list model of the priority queue, the
update() of the entry's pq position after a non-destroying flip on an old
entry is the identity. -/
def markGarbage (c : Config) (s : DBMState) (off : Nat) :
    Option (DBMState × List Event) :=
  let extentId := c.extentIndex off
  let blockId := c.blockIndex off
  match aGet s.entries extentId with
  | none => none
  | some e =>
    if lget false e.garray blockId then none
    else
      let e1 : GCEntry := { e with garray := lset e.garray blockId true }
      if e1.garray.length ≠ c.bpe then none
      else
        let s1 : DBMState :=
          { s with entries := aSet s.entries extentId e1,
                   oldGarbageBlocks :=
                     if e1.state = .old then s.oldGarbageBlocks + 1
                     else s.oldGarbageBlocks }
        if bcount e1.garray = c.bpe ∧ e1.state ≠ .active then
          match e1.state with
          | .reconstructing => none
          | .active => none
          | .young =>
            let s2 := { s1 with youngQueue := s1.youngQueue.erase extentId }
            let r := destroyEntry s2 extentId
            some (r.1, [r.2])
          | .old =>
            let s2 := { s1 with gcPq := s1.gcPq.erase extentId,
                                oldTotalBlocks := s1.oldTotalBlocks - c.bpe,
                                oldGarbageBlocks := s1.oldGarbageBlocks - c.bpe }
            let r := destroyEntry s2 extentId
            some (r.1, [r.2])
          | .inGc =>
            if s1.currentEntry ≠ some extentId then none
            else
              let s2 := { s1 with currentEntry := none }
              let r := destroyEntry s2 extentId
              some (r.1, [r.2])
        else
          some (s1, [])

/-! ## Young promotion -/

/-- data_block_manager_t::remove_last_unyoung_entry: pop the young queue
head, transition it young to old, push it into the priority queue and add
its blocks to the old statistics. -/
def removeLastUnyoungEntry (c : Config) (s : DBMState) : Option DBMState :=
  match s.youngQueue with
  | [] => none
  | id :: rest =>
    match aGet s.entries id with
    | none => none
    | some e =>
      if e.state ≠ .young then none
      else
        some { s with youngQueue := rest,
                      entries := aSet s.entries id { e with state := .old },
                      gcPq := s.gcPq ++ [id],
                      oldTotalBlocks := s.oldTotalBlocks + c.bpe,
                      oldGarbageBlocks := s.oldGarbageBlocks + bcount e.garray }

theorem removeLastUnyoungEntry_young_length (c : Config) (s s1 : DBMState)
    (h : removeLastUnyoungEntry c s = some s1) :
    s1.youngQueue.length < s.youngQueue.length := by
  unfold removeLastUnyoungEntry at h
  rcases hyq : s.youngQueue with _ | ⟨id, rest⟩ <;> rw [hyq] at h
  · simp at h
  · rcases hge : aGet s.entries id with _ | e <;> simp only [hge] at h
    · simp at h
    · by_cases hst : e.state = EntryState.young
      · rw [if_neg (by simp [hst])] at h
        rw [Option.some.injEq] at h
        subst h
        simp [hyq]
      · rw [if_pos (by simp [hst])] at h
        simp at h

/-- 64-bit unsigned current_time - timestamp. -/
def elapsedMicros (now ts : Nat) : Nat := (now + 2 ^ 64 - ts) % 2 ^ 64

theorem elapsedMicros_of_le (now ts : Nat) (h1 : ts ≤ now) (h2 : now < 2 ^ 64) :
    elapsedMicros now ts = now - ts := by
  unfold elapsedMicros
  have h3 : now + 2 ^ 64 - ts = (now - ts) + 2 ^ 64 := by omega
  rw [h3, Nat.add_mod_right]
  exact Nat.mod_eq_of_lt (by omega)

/-- Whether the young queue head has exceeded GC_YOUNG_EXTENT_TIMELIMIT_MICROS. -/
def youngHeadTimedOut (c : Config) (now : Nat) (s : DBMState) : Bool :=
  match s.youngQueue with
  | [] => false
  | id :: _ =>
    match aGet s.entries id with
    | none => false
    | some e => decide (elapsedMicros now e.timestamp > c.gcYoungTimelimitMicros)

/-- First loop of mark_unyoung_entries: drain while the young queue size
exceeds GC_YOUNG_EXTENT_MAX_SIZE.  The fuel only bounds the recursion;
since each pop shortens the queue, any fuel at least the queue length
gives the exact while-loop behaviour (and the queue length is what the
callers pass). -/
def muePhase1 (c : Config) : Nat → DBMState → Option DBMState
  | 0, s => if s.youngQueue.length > c.gcYoungMaxSize then none else some s
  | fuel + 1, s =>
    if s.youngQueue.length > c.gcYoungMaxSize then
      (removeLastUnyoungEntry c s).bind (muePhase1 c fuel)
    else some s

/-- Second loop of mark_unyoung_entries: drain while the head entry has
timed out.  Fuel as in muePhase1. -/
def muePhase2 (c : Config) (now : Nat) : Nat → DBMState → Option DBMState
  | 0, s => if youngHeadTimedOut c now s then none else some s
  | fuel + 1, s =>
    if youngHeadTimedOut c now s then
      (removeLastUnyoungEntry c s).bind (muePhase2 c now fuel)
    else some s

/-- data_block_manager_t::mark_unyoung_entries: both drain loops in order. -/
def markUnyoungEntries (c : Config) (now : Nat) (s : DBMState) :
    Option DBMState :=
  (muePhase1 c s.youngQueue.length s).bind fun s1 =>
    muePhase2 c now s1.youngQueue.length s1

/-! ## Offset allocator -/

/-- The start of gimme_a_new_offset: if the slot `next_active_extent` is
empty, take a fresh extent from the extent manager and install a new
active entry with every bit garbage (the gc_entry constructor of the
missing header sets all bits, per the spec). -/
def ensureActive (c : Config) (s : DBMState) : Option DBMState :=
  match lget none s.activeExtents s.nextActiveExtent with
  | some _ => some s
  | none =>
    match s.freshExtents with
    | [] => none
    | f :: rest =>
      some { s with
        entries := aSet s.entries f
          { offset := f * c.extentSize, state := .active,
            garray := List.replicate c.bpe true, timestamp := 0 },
        activeExtents := lset s.activeExtents s.nextActiveExtent (some f),
        blocksInActiveExtent := lset s.blocksInActiveExtent s.nextActiveExtent 0,
        freshExtents := rest }

/-- The do-while advancing next_active_extent cyclically, skipping indices
at or above num_active_data_extents unless the slot still holds a leftover
entry.  The fuel bounds the search; with numActive at least 1 a valid slot
is always found within maxActive steps. -/
def advanceNextAux (c : Config) (acts : List (Option Nat)) :
    Nat → Nat → Nat
  | 0, cur => cur
  | fuel + 1, cur =>
    let nxt := (cur + 1) % c.maxActive
    if nxt < c.numActive ∨ (lget none acts nxt).isSome then nxt
    else advanceNextAux c acts fuel nxt

/-- data_block_manager_t::gimme_a_new_offset. -/
def gimme (c : Config) (now : Nat) (s0 : DBMState) :
    Option (Nat × DBMState) :=
  match ensureActive c s0 with
  | none => none
  | some s =>
    let na := s.nextActiveExtent
    match lget none s.activeExtents na with
    | none => none
    | some id =>
      match aGet s.entries id with
      | none => none
      | some e =>
        if e.state ≠ .active then none
        else if bcount e.garray = 0 then none
        else
          let bia := lget 0 s.blocksInActiveExtent na
          if bia ≥ c.bpe then none
          else
            let off := e.offset + bia * c.blockSize
            if lget false e.garray bia = false then none
            else
              let e1 : GCEntry := { e with garray := lset e.garray bia false }
              let s1 : DBMState :=
                { s with entries := aSet s.entries id e1,
                         blocksInActiveExtent :=
                           lset s.blocksInActiveExtent na (bia + 1) }
              let s2opt : Option DBMState :=
                if bia + 1 = c.bpe then
                  if bcount e1.garray = c.bpe then none
                  else
                    markUnyoungEntries c now
                      { s1 with
                        entries := aSet s1.entries id
                          { e1 with state := .young, timestamp := now },
                        youngQueue := s1.youngQueue ++ [id],
                        activeExtents := lset s1.activeExtents na none }
                else some s1
              match s2opt with
              | none => none
              | some s2 =>
                some (off, { s2 with
                  nextActiveExtent :=
                    advanceNextAux c s2.activeExtents c.maxActive na })

/-! ## Read and write paths -/

/-- data_block_manager_t::write.  `bufHeaderBlockId` is the block id found
in the header word in front of the caller's buffer; a GC rewrite passes an
already stamped buffer together with `txnId = none` (NULL_SER_TRANSACTION_ID).
The returned Bool is the synchronous-completion flag of the C++ function. -/
def dbmWrite (c : Config) (now : Nat) (s : DBMState)
    (bufHeaderBlockId blockId : Nat) (txnId : Option Nat) :
    Option (Bool × Nat × DBMState × List Event) :=
  if ¬ (s.mgrState = .ready ∨
        (s.mgrState = .shuttingDown ∧ s.gcStep = .write)) then none
  else
    match gimme c now s with
    | none => none
    | some (off, s1) =>
      match txnId with
      | some _ => some (false, off, s1, [Event.writeIssued off c.blockSize])
      | none =>
        if bufHeaderBlockId ≠ blockId then none
        else some (false, off, s1, [Event.writeIssued off c.blockSize])

/-- data_block_manager_t::read.  With read-ahead off, a single block read
at the requested offset; with read-ahead on, the dbm_read_ahead_fsm_t
issues one chunk-sized read at the chunk containing the offset.  The
returned Bool is the synchronous-completion flag. -/
def dbmRead (c : Config) (s : DBMState) (offIn : Nat)
    (readAhead : Bool) (maxReadAheadBlocks : Nat) :
    Option (Bool × List Event) :=
  if s.mgrState ≠ .ready then none
  else if readAhead then
    let extent := offIn / c.extentSize * c.extentSize
    let raSize := min c.extentSize (maxReadAheadBlocks * c.blockSize)
    let raOffset := extent + (offIn - extent) / raSize * raSize
    some (false, [Event.readIssued raOffset raSize])
  else some (false, [Event.readIssued offIn c.blockSize])

/-! ## Priority queue of old extents -/

/-- The garbage count of an entry by extent index, 0 for a missing entry. -/
def entryCount (s : DBMState) (id : Nat) : Nat :=
  match aGet s.entries id with
  | none => 0
  | some e => bcount e.garray

/-- The element a pop of the priority queue returns: a maximal garbage
count (ties broken deterministically). -/
def pqSelect (s : DBMState) : List Nat → Option Nat
  | [] => none
  | x :: rest =>
    match pqSelect s rest with
    | none => some x
    | some y => if entryCount s y > entryCount s x then some y else some x

theorem pqSelect_mem (s : DBMState) (l : List Nat) (x : Nat)
    (h : pqSelect s l = some x) : x ∈ l := by
  induction l with
  | nil => simp [pqSelect] at h
  | cons a rest ih =>
    simp only [pqSelect] at h
    cases hr : pqSelect s rest with
    | none => rw [hr] at h; rw [Option.some.injEq] at h; simp [h.symm]
    | some y =>
      rw [hr] at h
      by_cases hc : entryCount s y > entryCount s a
      · simp only [if_pos hc, Option.some.injEq] at h
        subst h
        exact List.mem_cons_of_mem a (ih hr)
      · simp only [if_neg hc, Option.some.injEq] at h
        simp [h.symm]

theorem pqSelect_isSome (s : DBMState) (l : List Nat) (h : l ≠ []) :
    (pqSelect s l).isSome := by
  cases l with
  | nil => exact absurd rfl h
  | cons a rest =>
    simp only [pqSelect]
    cases pqSelect s rest with
    | none => simp
    | some y => by_cases hc : entryCount s y > entryCount s a <;> simp [hc]

/-! ## Shutdown machinery -/

/-- The loop of actually_shutdown over active_extents slots 0 up to
num_active_data_extents (exclusive): destroy the held entry and clear the
slot. -/
def shutdownActiveSlots (s : DBMState) : Nat → DBMState × List Event
  | 0 => (s, [])
  | n + 1 =>
    let r := shutdownActiveSlots s n
    match lget none r.1.activeExtents n with
    | none => r
    | some id =>
      let d := destroyEntry
        { r.1 with activeExtents := lset r.1.activeExtents n none } id
      (d.1, r.2 ++ [d.2])

/-- The loop of actually_shutdown draining the young queue (fuel bounds
the recursion; callers pass the queue length, which is exact). -/
def shutdownYoungQueue (s : DBMState) : Nat → DBMState × List Event
  | 0 => (s, [])
  | fuel + 1 =>
    match s.youngQueue with
    | [] => (s, [])
    | id :: rest =>
      let d := destroyEntry { s with youngQueue := rest } id
      let r := shutdownYoungQueue d.1 fuel
      (r.1, d.2 :: r.2)

/-- The loop of actually_shutdown draining the priority queue by popping. -/
def shutdownPq (s : DBMState) : Nat → DBMState × List Event
  | 0 => (s, [])
  | fuel + 1 =>
    match pqSelect s s.gcPq with
    | none => (s, [])
    | some id =>
      let d := destroyEntry { s with gcPq := s.gcPq.erase id } id
      let r := shutdownPq d.1 fuel
      (r.1, d.2 :: r.2)

/-- data_block_manager_t::actually_shutdown: move to shut_down, require no
reconstructed entries, destroy the entries of active slots below
num_active_data_extents, then the young queue, then the priority queue,
and finally invoke the stored shutdown callback if one exists. -/
def actuallyShutdown (c : Config) (s : DBMState) :
    Option (DBMState × List Event) :=
  if s.mgrState ≠ .shuttingDown then none
  else
    let s0 : DBMState := { s with mgrState := .shutDown }
    if s0.reconstructedExtents ≠ [] then none
    else
      let r1 := shutdownActiveSlots s0 c.numActive
      let r2 := shutdownYoungQueue r1.1 r1.1.youngQueue.length
      let r3 := shutdownPq r2.1 r2.1.gcPq.length
      some (r3.1, r1.2 ++ r2.2 ++ r3.2 ++
        (if r3.1.shutdownCbStored then [Event.shutdownCbInvoked] else []))

/-- data_block_manager_t::shutdown: move to shutting_down; if the GC step
is ready, shut down synchronously and return true; else store the
callback and return false. -/
def shutdown (c : Config) (s : DBMState) :
    Option (Bool × DBMState × List Event) :=
  if s.mgrState ≠ .ready then none
  else
    let s1 : DBMState := { s with mgrState := .shuttingDown }
    if s1.gcStep ≠ .ready then
      some (false, { s1 with shutdownCbStored := true }, [])
    else
      match actuallyShutdown c { s1 with shutdownCbStored := false } with
      | none => none
      | some (s2, evs) => some (true, s2, evs)

/-! ## GC enable and disable -/

/-- data_block_manager_t::disable_gc. -/
def disableGc (s : DBMState) : Option (Bool × DBMState × List Event) :=
  if s.gcDisableCbStored then none
  else
    let s1 : DBMState := { s with shouldBeStopped := true }
    if s1.gcStep ≠ .ready ∧ s1.gcStep ≠ .reconstruct then
      some (false, { s1 with gcDisableCbStored := true }, [])
    else
      some (true, s1, [Event.gcDisabledCbInvoked])

/-- data_block_manager_t::enable_gc. -/
def enableGc (s : DBMState) : DBMState :=
  { s with shouldBeStopped := false }

/-! ## GC state machine -/

/-- The gc_ready case of run_gc: stop if the priority queue is empty or
policy says stop; else move to ready_lock_available and request the
serializer's main mutex. -/
def gcReadyCase (c : Config) (s : DBMState) : DBMState × List Event :=
  if s.gcPq = [] ∨ shouldWeKeepGcing c s = false then (s, [])
  else ({ s with gcStep := .readyLockAvailable }, [Event.lockRequested])

/-- The gc_ready_lock_available case of run_gc: release the mutex; if
policy now says stop, back to ready.  Else pop the priority-queue top into
current_entry, transition it old to in_gc, subtract its garbage count and
blocks_per_extent from the old statistics, and issue one read per
non-garbage slot. -/
def gcReadyLockAvailableCase (c : Config) (s : DBMState) :
    Option (DBMState × List Event) :=
  if s.gcPq = [] ∨ shouldWeKeepGcing c s = false then
    some ({ s with gcStep := .ready }, [Event.mutexUnlocked])
  else
    match pqSelect s s.gcPq with
    | none => none
    | some victim =>
      match aGet s.entries victim with
      | none => none
      | some e =>
        if e.state ≠ .old then none
        else if s.refcount ≠ 0 then none
        else
          let liveSlots :=
            (List.range c.bpe).filter (fun i => lget false e.garray i = false)
          if liveSlots = [] then none
          else
            some ({ s with
                entries := aSet s.entries victim { e with state := .inGc },
                gcPq := s.gcPq.erase victim,
                currentEntry := some victim,
                oldGarbageBlocks := s.oldGarbageBlocks - bcount e.garray,
                oldTotalBlocks := s.oldTotalBlocks - c.bpe,
                refcount := liveSlots.length,
                gcStep := .read },
              Event.mutexUnlocked ::
                liveSlots.map (fun i =>
                  Event.readIssued (e.offset + i * c.blockSize) c.blockSize))

/-- The gc_read case of run_gc: one read completion arrives; decrement the
refcount and, when it reaches zero, move to read_lock_available and
request the mutex. -/
def gcReadCase (s : DBMState) : Option (DBMState × List Event) :=
  if s.refcount = 0 then none
  else if s.refcount - 1 > 0 then
    some ({ s with refcount := s.refcount - 1 }, [])
  else
    some ({ s with refcount := 0, gcStep := .readLockAvailable },
      [Event.lockRequested])

/-- The loop in the gc_read_lock_available case building gc_writes for
slots 0 up to n: skip slots whose garbage bit is set (re-checked against
the current bitmap), else take the block id from the slot's on-disk header
and the payload following the header. -/
def gcWritesLoop (g : List Bool) (blocks : List (Nat × Nat)) :
    Nat → List GcWrite
  | 0 => []
  | n + 1 =>
    gcWritesLoop g blocks n ++
      (if lget false g n then []
       else [{ blockId := (lget (0, 0) blocks n).1,
               payload := (lget (0, 0) blocks n).2 }])

/-- The gc_read_lock_available case of run_gc: if the victim was freed by
a mark_garbage cascade during the reads, release the mutex and go back to
ready.  Otherwise build the rewrite batch from the still-non-garbage slots
and hand it to write_gcs (the mutex is released inside write_gcs). -/
def gcReadLockAvailableCase (c : Config) (s : DBMState) :
    Option (DBMState × List Event) :=
  match s.currentEntry with
  | none => some ({ s with gcStep := .ready }, [Event.mutexUnlocked])
  | some victim =>
    match aGet s.entries victim with
    | none => none
    | some e =>
      let batch := gcWritesLoop e.garray s.gcBlocks c.bpe
      if batch.any (fun w => w.blockId = 0) then none
      else
        some ({ s with gcWrites := batch, gcStep := .write },
          [Event.writeGcsCalled batch])

/-- The gc_write case of run_gc: promote young entries first, require the
victim to have cascaded to destruction and the refcount to be zero, then
return to ready; if a shutdown is pending, run actually_shutdown. -/
def gcWriteCase (c : Config) (now : Nat) (s : DBMState) :
    Option (DBMState × List Event) :=
  match markUnyoungEntries c now s with
  | none => none
  | some s1 =>
    if s1.currentEntry ≠ none then none
    else if s1.refcount ≠ 0 then none
    else
      let s2 : DBMState := { s1 with gcStep := .ready }
      if s2.mgrState = .shuttingDown then
        match actuallyShutdown c s2 with
        | none => none
        | some r => some r
      else some (s2, [])

/-- One dispatch of the run_gc switch on the current GC step. -/
def runGcStep (c : Config) (now : Nat) (s : DBMState) :
    Option (DBMState × List Event) :=
  match s.gcStep with
  | .reconstruct => none
  | .ready => some (gcReadyCase c s)
  | .readyLockAvailable => gcReadyLockAvailableCase c s
  | .read => gcReadCase s
  | .readLockAvailable => gcReadLockAvailableCase c s
  | .write => gcWriteCase c now s

/-! ## Startup from an existing file -/

/-- One iteration of the start_existing loop over metablock slots: a
non-null offset revives (or creates) the entry for that extent, makes it
active in slot `i` and seeds the slot's fill count; a null offset clears
the slot. -/
def startExistingSlot (c : Config) (mbOff : Option Nat) (mbBlocks : Nat)
    (s : DBMState) (i : Nat) : Option DBMState :=
  match mbOff with
  | none => some { s with activeExtents := lset s.activeExtents i none }
  | some off =>
    let eid := off / c.extentSize
    let s1 : DBMState :=
      match aGet s.entries eid with
      | some _ => s
      | none =>
        { s with
          entries := aSet s.entries eid
            { offset := off, state := .reconstructing,
              garray := List.replicate c.bpe true, timestamp := 0 },
          reconstructedExtents := s.reconstructedExtents ++ [eid] }
    match aGet s1.entries eid with
    | none => none
    | some e =>
      if e.state ≠ .reconstructing then none
      else
        some { s1 with
          entries := aSet s1.entries eid { e with state := .active },
          activeExtents := lset s1.activeExtents i (some eid),
          reconstructedExtents := s1.reconstructedExtents.erase eid,
          blocksInActiveExtent := lset s1.blocksInActiveExtent i mbBlocks }

/-- The start_existing loop over slots 0 up to n. -/
def startExistingSlots (c : Config) (mb : Metablock) (s : DBMState) :
    Nat → Option DBMState
  | 0 => some s
  | n + 1 =>
    (startExistingSlots c mb s n).bind fun s1 =>
      startExistingSlot c (lget none mb.activeExtentOffsets n)
        (lget 0 mb.blocksInActive n) s1 n

/-- The trailing loop of start_existing: every remaining reconstructed
entry becomes old, is pushed into the priority queue, and the old
statistics grow by blocks_per_extent and by its garbage count. -/
def convertReconstructedList (c : Config) :
    List Nat → DBMState → Option DBMState
  | [], s => some s
  | id :: rest, s =>
    match aGet s.entries id with
    | none => none
    | some e =>
      if e.state ≠ .reconstructing then none
      else
        convertReconstructedList c rest
          { s with
            entries := aSet s.entries id { e with state := .old },
            gcPq := s.gcPq ++ [id],
            oldTotalBlocks := s.oldTotalBlocks + c.bpe,
            oldGarbageBlocks := s.oldGarbageBlocks + bcount e.garray }

/-- data_block_manager_t::start_existing. -/
def startExisting (c : Config) (mb : Metablock) (s : DBMState) :
    Option DBMState :=
  if s.mgrState ≠ .unstarted then none
  else
    (startExistingSlots c mb s c.maxActive).bind fun s1 =>
      (convertReconstructedList c s1.reconstructedExtents
          { s1 with reconstructedExtents := [] }).map fun s2 =>
        { s2 with mgrState := .ready }

/-! ## Concrete configurations and states used by witnesses -/

/-- A small configuration: 1-byte blocks, 2 blocks per extent, one active
slot. -/
def wcfg : Config :=
  { blockSize := 1, bpe := 2, maxActive := 1, numActive := 1,
    gcYoungMaxSize := 2, gcYoungTimelimitMicros := 1000,
    gcLowRatio := 1/4, gcHighRatio := 1/2 }

/-- A freshly started manager in state ready with three extents available
from the extent manager. -/
def wstate0 : DBMState :=
  { entries := [], activeExtents := [none], blocksInActiveExtent := [0],
    nextActiveExtent := 0, youngQueue := [], reconstructedExtents := [],
    gcPq := [], oldTotalBlocks := 0, oldGarbageBlocks := 0,
    gcStep := .ready, currentEntry := none, refcount := 0,
    shouldBeStopped := false, gcDisableCbStored := false,
    shutdownCbStored := false, mgrState := .ready,
    freshExtents := [0, 1, 2], heldExtents := 0, gcBlocks := [],
    gcWrites := [] }

/-! ## Claim C9: garbage_ratio -/

/-- C9: garbage_ratio() returns 0 whenever old_total_blocks is zero, even
if the extent manager holds free extents, and otherwise returns
old_garbage_blocks divided by (old_total_blocks plus held free extents
times blocks_per_extent). -/
theorem claim_C9 (c : Config) (s : DBMState) :
    (s.oldTotalBlocks = 0 → garbageRatio c s = 0) ∧
    (s.oldTotalBlocks ≠ 0 →
      garbageRatio c s = (s.oldGarbageBlocks : Rat) /
        ((s.oldTotalBlocks : Rat) + ((s.heldExtents * c.bpe : Nat) : Rat))) := by
  constructor
  · intro h
    unfold garbageRatio
    rw [if_pos h]
  · intro h
    unfold garbageRatio
    rw [if_neg h]

/-- C9 witness: with 3 held free extents and no old blocks the ratio is 0;
with old blocks present the quotient formula is returned. -/
theorem claim_C9_witness :
    garbageRatio wcfg { wstate0 with heldExtents := 3 } = 0 ∧
    garbageRatio wcfg
        { wstate0 with oldTotalBlocks := 2, oldGarbageBlocks := 1,
                       heldExtents := 3 } =
      (1 : Rat) / ((2 : Rat) + ((3 * 2 : Nat) : Rat)) := by
  constructor
  · exact (claim_C9 wcfg { wstate0 with heldExtents := 3 }).1 (by decide)
  · exact (claim_C9 wcfg
      { wstate0 with oldTotalBlocks := 2, oldGarbageBlocks := 1,
                     heldExtents := 3 }).2 (by decide)

/-! ## Claim C10: read and write never complete synchronously -/

/-- C10: whenever the public read or write operation runs, it returns
false: completion is signalled through the caller's callback, never
synchronously. -/
theorem claim_C10 :
    (∀ (c : Config) (now : Nat) (s : DBMState) (bh bid : Nat)
        (txn : Option Nat) (r : Bool × Nat × DBMState × List Event),
      dbmWrite c now s bh bid txn = some r → r.1 = false) ∧
    (∀ (c : Config) (s : DBMState) (offIn : Nat) (ra : Bool) (mrb : Nat)
        (r : Bool × List Event),
      dbmRead c s offIn ra mrb = some r → r.1 = false) := by
  constructor
  · intro c now s bh bid txn r h
    unfold dbmWrite at h
    split at h
    · simp at h
    · cases hg : gimme c now s with
      | none => rw [hg] at h; simp at h
      | some p =>
        rw [hg] at h
        obtain ⟨off, s1⟩ := p
        cases txn with
        | some t =>
          simp only [Option.some.injEq] at h
          rw [← h]
        | none =>
          simp only at h
          split at h
          · simp at h
          · simp only [Option.some.injEq] at h
            rw [← h]
  · intro c s offIn ra mrb r h
    unfold dbmRead at h
    split at h
    · simp at h
    · split at h <;>
        · simp only [Option.some.injEq] at h
          rw [← h]

/-- C10 witness: a concrete read with read-ahead off and a concrete write
both run and both return false. -/
theorem claim_C10_witness :
    (dbmRead wcfg wstate0 0 false 0).map Prod.fst = some false ∧
    (dbmWrite wcfg 5 wstate0 7 7 (some 1)).map Prod.fst = some false := by
  constructor
  · cases hr : dbmRead wcfg wstate0 0 false 0 with
    | none => exact absurd hr (by decide)
    | some r => simp [claim_C10.2 wcfg wstate0 0 false 0 r hr]
  · cases hr : dbmWrite wcfg 5 wstate0 7 7 (some 1) with
    | none => exact absurd hr (by decide)
    | some r => simp [claim_C10.1 wcfg 5 wstate0 7 7 (some 1) r hr]

/-! ## Claim C3: the GC rewrite batch -/

theorem gcWritesLoop_eq (g : List Bool) (blocks : List (Nat × Nat))
    (n : Nat) :
    gcWritesLoop g blocks n =
      ((List.range n).filter (fun i => lget false g i = false)).map
        (fun i => { blockId := (lget (0, 0) blocks i).1,
                    payload := (lget (0, 0) blocks i).2 }) := by
  induction n with
  | zero => rfl
  | succ n ih =>
    rw [List.range_succ]
    rw [List.filter_append, List.map_append]
    unfold gcWritesLoop
    rw [ih]
    cases hb : lget false g n with
    | false => simp [hb]
    | true => simp [hb]

/-- C3: in GC step read_lock_available with a non-null current entry, the
batch handed to write_gcs holds exactly the slots of the victim whose
garbage bit is 0 at that moment (re-read from the current bitmap, so slots
garbaged during the read phase are excluded), each taking its block id
from the slot's on-disk header and its payload from the bytes after the
header; the step advances to write and write_gcs is invoked on the batch. -/
theorem claim_C3 (c : Config) (now : Nat) (s : DBMState) (victim : Nat)
    (e : GCEntry) (r : DBMState × List Event)
    (hstep : s.gcStep = .readLockAvailable)
    (hcur : s.currentEntry = some victim)
    (hent : aGet s.entries victim = some e)
    (hrun : runGcStep c now s = some r) :
    r.1.gcWrites =
      ((List.range c.bpe).filter (fun i => lget false e.garray i = false)).map
        (fun i => { blockId := (lget (0, 0) s.gcBlocks i).1,
                    payload := (lget (0, 0) s.gcBlocks i).2 }) ∧
    r.1.gcStep = .write ∧
    r.2 = [Event.writeGcsCalled r.1.gcWrites] := by
  unfold runGcStep at hrun
  rw [hstep] at hrun
  unfold gcReadLockAvailableCase at hrun
  rw [hcur] at hrun
  simp only [hent] at hrun
  split at hrun
  · simp at hrun
  · rw [Option.some.injEq] at hrun
    subst hrun
    exact ⟨gcWritesLoop_eq e.garray s.gcBlocks c.bpe, rfl, rfl⟩

/-- A two-block in_gc victim whose slot 1 was garbaged while the reads
were in flight. -/
def c3pre : DBMState :=
  { wstate0 with
    gcStep := .readLockAvailable,
    currentEntry := some 0,
    entries := [(0, { offset := 0, state := .inGc,
                      garray := [false, true], timestamp := 0 })],
    gcBlocks := [(7, 100), (8, 200)] }

/-- The state claim_C3_witness expects after the read_lock_available step. -/
def c3post : DBMState :=
  { c3pre with
    gcStep := .write,
    gcWrites := [{ blockId := 7, payload := 100 }] }

/-- C3 witness: the concrete batch holds only slot 0, with header block
id 7 and payload token 100. -/
theorem claim_C3_witness :
    runGcStep wcfg 0 c3pre =
      some (c3post, [Event.writeGcsCalled [{ blockId := 7, payload := 100 }]]) ∧
    c3post.gcWrites =
      ((List.range wcfg.bpe).filter
          (fun i => lget false [false, true] i = false)).map
        (fun i => { blockId := (lget (0, 0) [(7, 100), (8, 200)] i).1,
                    payload := (lget (0, 0) [(7, 100), (8, 200)] i).2 }) := by
  constructor
  · decide
  · have h := claim_C3 wcfg 0 c3pre 0
      { offset := 0, state := .inGc, garray := [false, true], timestamp := 0 }
      (c3post, [Event.writeGcsCalled [{ blockId := 7, payload := 100 }]])
      (by decide) (by decide) (by decide) (by decide)
    exact h.1

/-! ## Claim C2: mark_garbage -/

theorem aErase_aSet {α : Type} (l : List (Nat × α)) (k : Nat) (v : α)
    (h : (aGet l k).isSome) : aErase (aSet l k v) k = aErase l k := by
  induction l with
  | nil => simp [aGet] at h
  | cons p l ih =>
    obtain ⟨k1, v1⟩ := p
    by_cases h1 : k1 = k
    · subst h1; simp [aSet, aErase]
    · simp only [aGet, if_neg h1] at h
      simp [aSet, aErase, h1, ih h]

/-- C2: mark_garbage(offset) flips the 0 bit of the addressed slot to 1.
If afterwards all bits of the entry are 1 and its state is not active, the
entry is removed from its container in that same call (young queue for
young; priority queue with old_total_blocks and old_garbage_blocks both
decremented by blocks_per_extent for old; current GC victim set to null
for in_gc), destroyed and its extent released.  Otherwise only the bit
flip remains, old_garbage_blocks grows by one when the state is old, and
in the list model of the priority queue the update of an old entry's pq
position is the identity, so nothing else changes. -/
theorem claim_C2 (c : Config) (s : DBMState) (off eid bid : Nat)
    (e : GCEntry)
    (heid : c.extentIndex off = eid) (hbid : c.blockIndex off = bid)
    (hent : aGet s.entries eid = some e)
    (hbit : lget false e.garray bid = false)
    (hlen : e.garray.length = c.bpe) :
    (¬ (bcount (lset e.garray bid true) = c.bpe ∧ e.state ≠ .active) →
      markGarbage c s off = some
        ({ s with
           entries := aSet s.entries eid { e with garray := lset e.garray bid true },
           oldGarbageBlocks :=
             if e.state = .old then s.oldGarbageBlocks + 1
             else s.oldGarbageBlocks }, [])) ∧
    (bcount (lset e.garray bid true) = c.bpe → e.state = .young →
      markGarbage c s off = some
        ({ s with
           entries := aErase s.entries eid,
           youngQueue := s.youngQueue.erase eid },
         [Event.extentReleased eid])) ∧
    (bcount (lset e.garray bid true) = c.bpe → e.state = .old →
      markGarbage c s off = some
        ({ s with
           entries := aErase s.entries eid,
           gcPq := s.gcPq.erase eid,
           oldTotalBlocks := s.oldTotalBlocks - c.bpe,
           oldGarbageBlocks := s.oldGarbageBlocks + 1 - c.bpe },
         [Event.extentReleased eid])) ∧
    (bcount (lset e.garray bid true) = c.bpe → e.state = .inGc →
      s.currentEntry = some eid →
      markGarbage c s off = some
        ({ s with
           entries := aErase s.entries eid,
           currentEntry := none },
         [Event.extentReleased eid])) := by
  have hsome : (aGet s.entries eid).isSome := by rw [hent]; rfl
  have hlen1 : (lset e.garray bid true).length = c.bpe := by
    rw [length_lset]; exact hlen
  have hc1 : ¬ (lget false e.garray bid = true) := by simp [hbit]
  have hc2 : ¬ ((lset e.garray bid true).length ≠ c.bpe) := by
    simp [hlen1]
  refine ⟨?_, ?_, ?_, ?_⟩
  · intro hnf
    simp only [markGarbage, heid, hbid, hent]
    rw [if_neg hc1, if_neg hc2, if_neg (by exact hnf)]
  · intro hfull hyoung
    simp only [markGarbage, heid, hbid, hent]
    rw [if_neg hc1, if_neg hc2,
      if_pos (by exact ⟨hfull, by rw [hyoung]; simp⟩)]
    simp only [hyoung, destroyEntry]
    rw [Option.some.injEq, Prod.mk.injEq]
    refine ⟨?_, rfl⟩
    have hre := aErase_aSet s.entries eid
      { e with garray := lset e.garray bid true, state := EntryState.young }
      hsome
    congr 1
  · intro hfull hold
    simp only [markGarbage, heid, hbid, hent]
    rw [if_neg hc1, if_neg hc2,
      if_pos (by exact ⟨hfull, by rw [hold]; simp⟩)]
    simp only [hold, destroyEntry]
    rw [Option.some.injEq, Prod.mk.injEq]
    refine ⟨?_, rfl⟩
    congr 1
    · exact aErase_aSet _ _ _ hsome
  · intro hfull hingc hcur
    simp only [markGarbage, heid, hbid, hent]
    rw [if_neg hc1, if_neg hc2,
      if_pos (by exact ⟨hfull, by rw [hingc]; simp⟩)]
    simp only [hingc, destroyEntry, hcur]
    rw [if_neg (by simp)]
    rw [Option.some.injEq, Prod.mk.injEq]
    refine ⟨?_, rfl⟩
    congr 1
    · exact aErase_aSet _ _ _ hsome

/-- A young entry with one garbage block, sitting in the young queue. -/
def c2e : GCEntry :=
  { offset := 0, state := .young, garray := [true, false], timestamp := 6 }

/-- A manager holding only the young entry c2e. -/
def c2s : DBMState :=
  { wstate0 with entries := [(0, c2e)], youngQueue := [0] }

/-- C2 witness: marking the last live block of the young entry destroys
it, removes it from the young queue and releases its extent. -/
theorem claim_C2_witness :
    markGarbage wcfg c2s 1 =
      some ({ c2s with entries := [], youngQueue := [] },
        [Event.extentReleased 0]) := by
  have h := (claim_C2 wcfg c2s 1 0 1 c2e rfl rfl (by decide) (by decide)
    (by decide)).2.1 (by decide) (by decide)
  exact h

/-! ## Preservation lemmas for young promotion -/

/-- The fields young promotion never touches. -/
def sameAllocFields (s t : DBMState) : Prop :=
  t.activeExtents = s.activeExtents ∧
  t.blocksInActiveExtent = s.blocksInActiveExtent ∧
  t.nextActiveExtent = s.nextActiveExtent ∧
  t.reconstructedExtents = s.reconstructedExtents ∧
  t.gcStep = s.gcStep ∧
  t.currentEntry = s.currentEntry ∧
  t.refcount = s.refcount ∧
  t.shouldBeStopped = s.shouldBeStopped ∧
  t.gcDisableCbStored = s.gcDisableCbStored ∧
  t.shutdownCbStored = s.shutdownCbStored ∧
  t.mgrState = s.mgrState ∧
  t.freshExtents = s.freshExtents ∧
  t.heldExtents = s.heldExtents ∧
  t.gcBlocks = s.gcBlocks ∧
  t.gcWrites = s.gcWrites

theorem sameAllocFields_refl (s : DBMState) : sameAllocFields s s := by
  unfold sameAllocFields
  exact ⟨rfl, rfl, rfl, rfl, rfl, rfl, rfl, rfl, rfl, rfl, rfl, rfl, rfl,
    rfl, rfl⟩

theorem sameAllocFields_trans {s t u : DBMState}
    (h1 : sameAllocFields s t) (h2 : sameAllocFields t u) :
    sameAllocFields s u := by
  unfold sameAllocFields at h1 h2 ⊢
  obtain ⟨a1, a2, a3, a4, a5, a6, a7, a8, a9, a10, a11, a12, a13, a14, a15⟩ := h1
  obtain ⟨b1, b2, b3, b4, b5, b6, b7, b8, b9, b10, b11, b12, b13, b14, b15⟩ := h2
  exact ⟨b1.trans a1, b2.trans a2, b3.trans a3, b4.trans a4, b5.trans a5,
    b6.trans a6, b7.trans a7, b8.trans a8, b9.trans a9, b10.trans a10,
    b11.trans a11, b12.trans a12, b13.trans a13, b14.trans a14, b15.trans a15⟩

/-- Inversion of remove_last_unyoung_entry. -/
theorem removeLastUnyoungEntry_inv (c : Config) (s t : DBMState)
    (h : removeLastUnyoungEntry c s = some t) :
    ∃ id rest e, s.youngQueue = id :: rest ∧
      aGet s.entries id = some e ∧ e.state = .young ∧
      t = { s with
        youngQueue := rest,
        entries := aSet s.entries id { e with state := .old },
        gcPq := s.gcPq ++ [id],
        oldTotalBlocks := s.oldTotalBlocks + c.bpe,
        oldGarbageBlocks := s.oldGarbageBlocks + bcount e.garray } := by
  unfold removeLastUnyoungEntry at h
  rcases hyq : s.youngQueue with _ | ⟨id, rest⟩ <;> rw [hyq] at h
  · simp at h
  · rcases hge : aGet s.entries id with _ | e <;> simp only [hge] at h
    · simp at h
    · by_cases hst : e.state = EntryState.young
      · rw [if_neg (by simp [hst])] at h
        rw [Option.some.injEq] at h
        exact ⟨id, rest, e, rfl, hge, hst, h.symm⟩
      · rw [if_pos (by simp [hst])] at h
        simp at h

theorem removeLastUnyoungEntry_fields (c : Config) (s t : DBMState)
    (h : removeLastUnyoungEntry c s = some t) : sameAllocFields s t := by
  obtain ⟨id, rest, e, hyq, hge, hst, ht⟩ := removeLastUnyoungEntry_inv c s t h
  subst ht
  exact ⟨rfl, rfl, rfl, rfl, rfl, rfl, rfl, rfl, rfl, rfl, rfl, rfl, rfl,
    rfl, rfl⟩

theorem muePhase1_fields (c : Config) :
    ∀ (fuel : Nat) (s t : DBMState), muePhase1 c fuel s = some t →
      sameAllocFields s t := by
  intro fuel
  induction fuel with
  | zero =>
    intro s t h
    unfold muePhase1 at h
    split at h
    · simp at h
    · rw [Option.some.injEq] at h
      subst h
      exact sameAllocFields_refl s
  | succ n ih =>
    intro s t h
    unfold muePhase1 at h
    split at h
    · cases hr : removeLastUnyoungEntry c s with
      | none => rw [hr] at h; simp at h
      | some s1 =>
        rw [hr] at h
        simp only [Option.some_bind] at h
        exact sameAllocFields_trans
          (removeLastUnyoungEntry_fields c s s1 hr) (ih s1 t h)
    · rw [Option.some.injEq] at h
      subst h
      exact sameAllocFields_refl s

theorem muePhase2_fields (c : Config) (now : Nat) :
    ∀ (fuel : Nat) (s t : DBMState), muePhase2 c now fuel s = some t →
      sameAllocFields s t := by
  intro fuel
  induction fuel with
  | zero =>
    intro s t h
    unfold muePhase2 at h
    split at h
    · simp at h
    · rw [Option.some.injEq] at h
      subst h
      exact sameAllocFields_refl s
  | succ n ih =>
    intro s t h
    unfold muePhase2 at h
    split at h
    · cases hr : removeLastUnyoungEntry c s with
      | none => rw [hr] at h; simp at h
      | some s1 =>
        rw [hr] at h
        simp only [Option.some_bind] at h
        exact sameAllocFields_trans
          (removeLastUnyoungEntry_fields c s s1 hr) (ih s1 t h)
    · rw [Option.some.injEq] at h
      subst h
      exact sameAllocFields_refl s

theorem markUnyoungEntries_fields (c : Config) (now : Nat) (s t : DBMState)
    (h : markUnyoungEntries c now s = some t) : sameAllocFields s t := by
  unfold markUnyoungEntries at h
  cases h1 : muePhase1 c s.youngQueue.length s with
  | none => rw [h1] at h; simp at h
  | some s1 =>
    rw [h1] at h
    simp only [Option.some_bind] at h
    exact sameAllocFields_trans (muePhase1_fields c _ s s1 h1)
      (muePhase2_fields c now _ s1 t h)

/-- Young promotion leaves every entry that is not young untouched. -/
theorem removeLastUnyoungEntry_preserves (c : Config) (s t : DBMState)
    (id : Nat) (e : GCEntry)
    (h : removeLastUnyoungEntry c s = some t)
    (hent : aGet s.entries id = some e) (hst : e.state ≠ .young) :
    aGet t.entries id = some e := by
  obtain ⟨hd, rest, e1, hyq, hge, hst1, ht⟩ :=
    removeLastUnyoungEntry_inv c s t h
  subst ht
  by_cases hh : hd = id
  · subst hh
    rw [hent] at hge
    rw [Option.some.injEq] at hge
    subst hge
    exact absurd hst1 hst
  · simpa [aGet_aSet_ne s.entries hd id _ hh] using hent

theorem muePhase1_preserves (c : Config) :
    ∀ (fuel : Nat) (s t : DBMState) (id : Nat) (e : GCEntry),
      muePhase1 c fuel s = some t →
      aGet s.entries id = some e → e.state ≠ .young →
      aGet t.entries id = some e := by
  intro fuel
  induction fuel with
  | zero =>
    intro s t id e h hent hst
    unfold muePhase1 at h
    split at h
    · simp at h
    · rw [Option.some.injEq] at h
      subst h
      exact hent
  | succ n ih =>
    intro s t id e h hent hst
    unfold muePhase1 at h
    split at h
    · cases hr : removeLastUnyoungEntry c s with
      | none => rw [hr] at h; simp at h
      | some s1 =>
        rw [hr] at h
        simp only [Option.some_bind] at h
        exact ih s1 t id e h
          (removeLastUnyoungEntry_preserves c s s1 id e hr hent hst) hst
    · rw [Option.some.injEq] at h
      subst h
      exact hent

theorem muePhase2_preserves (c : Config) (now : Nat) :
    ∀ (fuel : Nat) (s t : DBMState) (id : Nat) (e : GCEntry),
      muePhase2 c now fuel s = some t →
      aGet s.entries id = some e → e.state ≠ .young →
      aGet t.entries id = some e := by
  intro fuel
  induction fuel with
  | zero =>
    intro s t id e h hent hst
    unfold muePhase2 at h
    split at h
    · simp at h
    · rw [Option.some.injEq] at h
      subst h
      exact hent
  | succ n ih =>
    intro s t id e h hent hst
    unfold muePhase2 at h
    split at h
    · cases hr : removeLastUnyoungEntry c s with
      | none => rw [hr] at h; simp at h
      | some s1 =>
        rw [hr] at h
        simp only [Option.some_bind] at h
        exact ih s1 t id e h
          (removeLastUnyoungEntry_preserves c s s1 id e hr hent hst) hst
    · rw [Option.some.injEq] at h
      subst h
      exact hent

theorem markUnyoungEntries_preserves (c : Config) (now : Nat)
    (s t : DBMState) (id : Nat) (e : GCEntry)
    (h : markUnyoungEntries c now s = some t)
    (hent : aGet s.entries id = some e) (hst : e.state ≠ .young) :
    aGet t.entries id = some e := by
  unfold markUnyoungEntries at h
  cases h1 : muePhase1 c s.youngQueue.length s with
  | none => rw [h1] at h; simp at h
  | some s1 =>
    rw [h1] at h
    simp only [Option.some_bind] at h
    exact muePhase2_preserves c now _ s1 t id e h
      (muePhase1_preserves c _ s s1 id e h1 hent hst) hst

/-! ## Characterization of the shutdown phases -/

theorem lget_of_le_length {α : Type} (d : α) (l : List α) (i : Nat)
    (h : l.length ≤ i) : lget d l i = d := by
  induction l generalizing i with
  | nil => cases i <;> rfl
  | cons a l ih =>
    cases i with
    | zero => simp at h
    | succ n => exact ih n (by simpa using h)

/-- The extent indices held in active slots 0 up to n. -/
def activeSlotIds (s : DBMState) (n : Nat) : List Nat :=
  (List.range n).filterMap (fun i => lget none s.activeExtents i)

theorem shutdownActiveSlots_spec (s : DBMState) (hnd : keysNodup s.entries) :
    ∀ n,
      (∀ i, i < n →
        lget none (shutdownActiveSlots s n).1.activeExtents i = none) ∧
      (∀ i, n ≤ i →
        lget none (shutdownActiveSlots s n).1.activeExtents i =
          lget none s.activeExtents i) ∧
      (∀ id, aGet (shutdownActiveSlots s n).1.entries id =
        if id ∈ activeSlotIds s n then none else aGet s.entries id) ∧
      keysNodup (shutdownActiveSlots s n).1.entries ∧
      (shutdownActiveSlots s n).1.youngQueue = s.youngQueue ∧
      (shutdownActiveSlots s n).1.gcPq = s.gcPq ∧
      (shutdownActiveSlots s n).1.mgrState = s.mgrState ∧
      (shutdownActiveSlots s n).1.shutdownCbStored = s.shutdownCbStored ∧
      (shutdownActiveSlots s n).1.reconstructedExtents =
        s.reconstructedExtents ∧
      (∀ ev ∈ (shutdownActiveSlots s n).2, ev ≠ Event.shutdownCbInvoked) := by
  intro n
  induction n with
  | zero =>
    refine ⟨fun i hi => absurd hi (by omega), fun i _ => rfl, ?_, hnd, rfl,
      rfl, rfl, rfl, rfl, ?_⟩
    · intro id
      simp [activeSlotIds, shutdownActiveSlots]
    · intro ev hev
      simp [shutdownActiveSlots] at hev
  | succ n ih =>
    obtain ⟨ih1, ih2, ih3, ihnd, ihy, ihpq, ihm, ihcb, ihrec, ihev⟩ := ih
    cases hslot : lget none s.activeExtents n with
    | none =>
      have hslotIds : activeSlotIds s (n + 1) = activeSlotIds s n := by
        unfold activeSlotIds
        rw [List.range_succ, List.filterMap_append]
        simp [hslot]
      have hsame : shutdownActiveSlots s (n + 1) = shutdownActiveSlots s n := by
        simp only [shutdownActiveSlots]
        rw [ih2 n (le_refl n), hslot]
      rw [hsame, hslotIds]
      refine ⟨?_, ?_, ih3, ihnd, ihy, ihpq, ihm, ihcb, ihrec, ihev⟩
      · intro i hi
        by_cases h : i < n
        · exact ih1 i h
        · have hin : i = n := by omega
          rw [hin, ih2 n (le_refl n)]
          exact hslot
      · intro i hi
        exact ih2 i (by omega)
    | some eid =>
      have hslotIds : activeSlotIds s (n + 1) = activeSlotIds s n ++ [eid] := by
        unfold activeSlotIds
        rw [List.range_succ, List.filterMap_append]
        simp [hslot]
      have hstep : shutdownActiveSlots s (n + 1) =
          (({ (shutdownActiveSlots s n).1 with
              activeExtents :=
                lset (shutdownActiveSlots s n).1.activeExtents n none,
              entries := aErase (shutdownActiveSlots s n).1.entries eid },
            (shutdownActiveSlots s n).2 ++ [Event.extentReleased eid])) := by
        simp only [shutdownActiveSlots]
        rw [ih2 n (le_refl n), hslot]
        rfl
      rw [hstep, hslotIds]
      refine ⟨?_, ?_, ?_, ?_, ihy, ihpq, ihm, ihcb, ihrec, ?_⟩
      · intro i hi
        by_cases h : i < n
        · rw [lget_lset_ne _ _ _ _ _ (by omega)]
          exact ih1 i h
        · have hin : i = n := by omega
          rw [hin]
          by_cases hlen : n < (shutdownActiveSlots s n).1.activeExtents.length
          · exact lget_lset_eq _ _ _ _ hlen
          · rw [lget_of_le_length _ _ _ (by rw [length_lset]; omega)]
      · intro i hi
        rw [lget_lset_ne _ _ _ _ _ (by omega)]
        exact ih2 i (by omega)
      · intro id
        by_cases h : id = eid
        · subst h
          rw [aGet_aErase_eq _ _ ihnd]
          rw [if_pos (by simp [hslot])]
        · rw [aGet_aErase_ne _ _ _ (fun hh => h hh.symm)]
          rw [ih3 id]
          by_cases hmem : id ∈ activeSlotIds s n
          · rw [if_pos hmem, if_pos (by simp [hmem])]
          · rw [if_neg hmem, if_neg (by simp [hslot, hmem, h])]
      · exact keysNodup_aErase _ _ ihnd
      · intro ev hev
        rcases List.mem_append.mp hev with hev | hev
        · exact ihev ev hev
        · rw [List.mem_singleton] at hev
          subst hev
          simp

theorem shutdownYoungQueue_spec :
    ∀ (fuel : Nat) (s : DBMState), s.youngQueue.length ≤ fuel →
      keysNodup s.entries →
      (shutdownYoungQueue s fuel).1.youngQueue = [] ∧
      (∀ id, aGet (shutdownYoungQueue s fuel).1.entries id =
        if id ∈ s.youngQueue then none else aGet s.entries id) ∧
      keysNodup (shutdownYoungQueue s fuel).1.entries ∧
      (shutdownYoungQueue s fuel).1.activeExtents = s.activeExtents ∧
      (shutdownYoungQueue s fuel).1.gcPq = s.gcPq ∧
      (shutdownYoungQueue s fuel).1.mgrState = s.mgrState ∧
      (shutdownYoungQueue s fuel).1.shutdownCbStored = s.shutdownCbStored ∧
      (∀ ev ∈ (shutdownYoungQueue s fuel).2,
        ev ≠ Event.shutdownCbInvoked) := by
  intro fuel
  induction fuel with
  | zero =>
    intro s hlen hnd
    have hyq : s.youngQueue = [] := List.length_eq_zero.mp (by omega)
    refine ⟨by simp [shutdownYoungQueue, hyq], ?_, hnd, rfl, rfl, rfl, rfl, ?_⟩
    · intro id
      simp [shutdownYoungQueue, hyq]
    · intro ev hev
      simp [shutdownYoungQueue] at hev
  | succ n ih =>
    intro s hlen hnd
    cases hyq : s.youngQueue with
    | nil =>
      have hstep0 : shutdownYoungQueue s (n + 1) = (s, []) := by
        simp only [shutdownYoungQueue]
        rw [hyq]
      rw [hstep0]
      refine ⟨hyq, ?_, hnd, rfl, rfl, rfl, rfl, ?_⟩
      · intro id
        simp
      · intro ev hev
        simp at hev
    | cons hd rest =>
      have hstep : shutdownYoungQueue s (n + 1) =
          ((shutdownYoungQueue
              { s with youngQueue := rest,
                       entries := aErase s.entries hd } n).1,
            Event.extentReleased hd ::
              (shutdownYoungQueue
                { s with youngQueue := rest,
                         entries := aErase s.entries hd } n).2) := by
        simp only [shutdownYoungQueue]
        rw [hyq]
        rfl
      have hlen2 : rest.length ≤ n := by
        rw [hyq] at hlen
        simpa using hlen
      have hnd2 : keysNodup (aErase s.entries hd) := keysNodup_aErase _ _ hnd
      obtain ⟨j1, j2, j3, j4, j5, j6, j7, j8⟩ :=
        ih { s with youngQueue := rest, entries := aErase s.entries hd }
          hlen2 hnd2
      rw [hstep]
      refine ⟨j1, ?_, j3, j4, j5, j6, j7, ?_⟩
      · intro id
        rw [j2 id]
        by_cases hr : id ∈ rest
        · rw [if_pos hr, if_pos (by simp [hr])]
        · rw [if_neg hr]
          by_cases hh : id = hd
          · subst hh
            rw [aGet_aErase_eq _ _ hnd, if_pos (by simp)]
          · rw [aGet_aErase_ne _ _ _ (fun hx => hh hx.symm),
              if_neg (by simp [hh, hr])]
      · intro ev hev
        rcases List.mem_cons.mp hev with hev | hev
        · subst hev; simp
        · exact j8 ev hev

theorem shutdownPq_spec :
    ∀ (fuel : Nat) (s : DBMState), s.gcPq.length ≤ fuel →
      keysNodup s.entries →
      (shutdownPq s fuel).1.gcPq = [] ∧
      (∀ id, aGet (shutdownPq s fuel).1.entries id =
        if id ∈ s.gcPq then none else aGet s.entries id) ∧
      keysNodup (shutdownPq s fuel).1.entries ∧
      (shutdownPq s fuel).1.activeExtents = s.activeExtents ∧
      (shutdownPq s fuel).1.youngQueue = s.youngQueue ∧
      (shutdownPq s fuel).1.mgrState = s.mgrState ∧
      (shutdownPq s fuel).1.shutdownCbStored = s.shutdownCbStored ∧
      (∀ ev ∈ (shutdownPq s fuel).2, ev ≠ Event.shutdownCbInvoked) := by
  intro fuel
  induction fuel with
  | zero =>
    intro s hlen hnd
    have hpq : s.gcPq = [] := List.length_eq_zero.mp (by omega)
    refine ⟨by simp [shutdownPq, hpq], ?_, hnd, rfl, rfl, rfl, rfl, ?_⟩
    · intro id
      simp [shutdownPq, hpq]
    · intro ev hev
      simp [shutdownPq] at hev
  | succ n ih =>
    intro s hlen hnd
    cases hpq : s.gcPq with
    | nil =>
      have hsel : pqSelect s s.gcPq = none := by rw [hpq]; rfl
      have hstep0 : shutdownPq s (n + 1) = (s, []) := by
        simp only [shutdownPq]
        rw [hsel]
      rw [hstep0]
      refine ⟨hpq, ?_, hnd, rfl, rfl, rfl, rfl, ?_⟩
      · intro id
        simp
      · intro ev hev
        simp at hev
    | cons hd rest =>
      have hne : s.gcPq ≠ [] := by rw [hpq]; simp
      obtain ⟨x, hx⟩ := Option.isSome_iff_exists.mp (pqSelect_isSome s s.gcPq hne)
      have hxmem : x ∈ s.gcPq := pqSelect_mem s s.gcPq x hx
      have hstep : shutdownPq s (n + 1) =
          ((shutdownPq
              { s with gcPq := s.gcPq.erase x,
                       entries := aErase s.entries x } n).1,
            Event.extentReleased x ::
              (shutdownPq
                { s with gcPq := s.gcPq.erase x,
                         entries := aErase s.entries x } n).2) := by
        simp only [shutdownPq]
        rw [hx]
        rfl
      have hlen2 : (s.gcPq.erase x).length ≤ n := by
        rw [List.length_erase_of_mem hxmem] at *
        rw [hpq] at hlen ⊢
        simp at hlen ⊢
        omega
      have hnd2 : keysNodup (aErase s.entries x) := keysNodup_aErase _ _ hnd
      obtain ⟨j1, j2, j3, j4, j5, j6, j7, j8⟩ :=
        ih { s with gcPq := s.gcPq.erase x, entries := aErase s.entries x }
          hlen2 hnd2
      rw [hstep]
      refine ⟨j1, ?_, j3, j4, j5, j6, j7, ?_⟩
      · intro id
        rw [j2 id]
        by_cases hr : id ∈ s.gcPq.erase x
        · rw [if_pos hr, if_pos (hpq ▸ List.mem_of_mem_erase hr)]
        · rw [if_neg hr]
          by_cases hh : id = x
          · subst hh
            rw [aGet_aErase_eq _ _ hnd, if_pos (hpq ▸ hxmem)]
          · rw [aGet_aErase_ne _ _ _ (fun hz => hh hz.symm)]
            have hnotmem : id ∉ s.gcPq := by
              intro hmem
              exact hr (List.mem_erase_of_ne hh |>.mpr hmem)
            rw [if_neg (hpq ▸ hnotmem)]
      · intro ev hev
        rcases List.mem_cons.mp hev with hev | hev
        · subst hev; simp
        · exact j8 ev hev

/-- The extent indices whose entries actually_shutdown destroys: active
slots below num_active_data_extents, then the young queue, then the
priority queue. -/
def shutdownVictims (c : Config) (s : DBMState) : List Nat :=
  activeSlotIds s c.numActive ++ s.youngQueue ++ s.gcPq

theorem actuallyShutdown_eq (c : Config) (s : DBMState)
    (hm : s.mgrState = .shuttingDown) (hrec : s.reconstructedExtents = []) :
    actuallyShutdown c s =
      some ((shutdownPq
          (shutdownYoungQueue
            (shutdownActiveSlots { s with mgrState := .shutDown }
              c.numActive).1
            (shutdownActiveSlots { s with mgrState := .shutDown }
              c.numActive).1.youngQueue.length).1
          (shutdownYoungQueue
            (shutdownActiveSlots { s with mgrState := .shutDown }
              c.numActive).1
            (shutdownActiveSlots { s with mgrState := .shutDown }
              c.numActive).1.youngQueue.length).1.gcPq.length).1,
        (shutdownActiveSlots { s with mgrState := .shutDown } c.numActive).2 ++
        (shutdownYoungQueue
          (shutdownActiveSlots { s with mgrState := .shutDown }
            c.numActive).1
          (shutdownActiveSlots { s with mgrState := .shutDown }
            c.numActive).1.youngQueue.length).2 ++
        (shutdownPq
          (shutdownYoungQueue
            (shutdownActiveSlots { s with mgrState := .shutDown }
              c.numActive).1
            (shutdownActiveSlots { s with mgrState := .shutDown }
              c.numActive).1.youngQueue.length).1
          (shutdownYoungQueue
            (shutdownActiveSlots { s with mgrState := .shutDown }
              c.numActive).1
            (shutdownActiveSlots { s with mgrState := .shutDown }
              c.numActive).1.youngQueue.length).1.gcPq.length).2 ++
        (if (shutdownPq
            (shutdownYoungQueue
              (shutdownActiveSlots { s with mgrState := .shutDown }
                c.numActive).1
              (shutdownActiveSlots { s with mgrState := .shutDown }
                c.numActive).1.youngQueue.length).1
            (shutdownYoungQueue
              (shutdownActiveSlots { s with mgrState := .shutDown }
                c.numActive).1
              (shutdownActiveSlots { s with mgrState := .shutDown }
                c.numActive).1.youngQueue.length).1.gcPq.length).1.shutdownCbStored
         then [Event.shutdownCbInvoked] else [])) := by
  unfold actuallyShutdown
  rw [if_neg (by simp [hm]), if_neg (by simp [hrec])]

theorem actuallyShutdown_spec (c : Config) (s : DBMState)
    (hm : s.mgrState = .shuttingDown) (hrec : s.reconstructedExtents = [])
    (hnd : keysNodup s.entries) :
    ∃ st evs, actuallyShutdown c s = some (st, evs) ∧
      st.mgrState = .shutDown ∧
      st.youngQueue = [] ∧
      st.gcPq = [] ∧
      (∀ i, i < c.numActive → lget none st.activeExtents i = none) ∧
      (∀ i, c.numActive ≤ i →
        lget none st.activeExtents i = lget none s.activeExtents i) ∧
      (∀ id, aGet st.entries id =
        if id ∈ shutdownVictims c s then none else aGet s.entries id) ∧
      st.shutdownCbStored = s.shutdownCbStored ∧
      (Event.shutdownCbInvoked ∈ evs ↔ s.shutdownCbStored = true) := by
  obtain ⟨a1, a2, a3, andup, a5, a6, a7, a8, a9, a10⟩ :=
    shutdownActiveSlots_spec { s with mgrState := MgrState.shutDown }
      (by simpa using hnd) c.numActive
  obtain ⟨b1, b2, b3, b4, b5, b6, b7, b8⟩ :=
    shutdownYoungQueue_spec
      (shutdownActiveSlots { s with mgrState := MgrState.shutDown }
        c.numActive).1.youngQueue.length
      (shutdownActiveSlots { s with mgrState := MgrState.shutDown }
        c.numActive).1 (le_refl _) andup
  obtain ⟨c1, c2, c3, c4, c5, c6, c7, c8⟩ :=
    shutdownPq_spec
      (shutdownYoungQueue
        (shutdownActiveSlots { s with mgrState := MgrState.shutDown }
          c.numActive).1
        (shutdownActiveSlots { s with mgrState := MgrState.shutDown }
          c.numActive).1.youngQueue.length).1.gcPq.length
      (shutdownYoungQueue
        (shutdownActiveSlots { s with mgrState := MgrState.shutDown }
          c.numActive).1
        (shutdownActiveSlots { s with mgrState := MgrState.shutDown }
          c.numActive).1.youngQueue.length).1 (le_refl _) b3
  refine ⟨_, _, actuallyShutdown_eq c s hm hrec, ?_, ?_, c1, ?_, ?_, ?_, ?_, ?_⟩
  · rw [c6, b6, a7]
  · rw [c5, b1]
  · intro i hi
    rw [c4, b4]
    exact a1 i hi
  · intro i hi
    rw [c4, b4]
    exact a2 i hi
  · intro id
    rw [c2 id]
    rw [show (shutdownYoungQueue
        (shutdownActiveSlots { s with mgrState := MgrState.shutDown }
          c.numActive).1
        (shutdownActiveSlots { s with mgrState := MgrState.shutDown }
          c.numActive).1.youngQueue.length).1.gcPq = s.gcPq from by rw [b5, a6]]
    rw [b2 id]
    rw [show (shutdownActiveSlots { s with mgrState := MgrState.shutDown }
        c.numActive).1.youngQueue = s.youngQueue from by rw [a5]]
    rw [a3 id]
    have hsl : activeSlotIds { s with mgrState := MgrState.shutDown }
        c.numActive = activeSlotIds s c.numActive := rfl
    rw [hsl]
    simp only [shutdownVictims, List.mem_append]
    by_cases h1 : id ∈ activeSlotIds s c.numActive <;>
      by_cases h2 : id ∈ s.youngQueue <;>
      by_cases h3 : id ∈ s.gcPq <;>
      simp [h1, h2, h3]
  · rw [c7, b7, a8]
  · have hcb : (shutdownPq
        (shutdownYoungQueue
          (shutdownActiveSlots { s with mgrState := MgrState.shutDown }
            c.numActive).1
          (shutdownActiveSlots { s with mgrState := MgrState.shutDown }
            c.numActive).1.youngQueue.length).1
        (shutdownYoungQueue
          (shutdownActiveSlots { s with mgrState := MgrState.shutDown }
            c.numActive).1
          (shutdownActiveSlots { s with mgrState := MgrState.shutDown }
            c.numActive).1.youngQueue.length).1.gcPq.length).1.shutdownCbStored
        = s.shutdownCbStored := by rw [c7, b7, a8]
    constructor
    · intro hmem
      rcases List.mem_append.mp hmem with hmem | hmem
      · rcases List.mem_append.mp hmem with hmem | hmem
        · rcases List.mem_append.mp hmem with hmem | hmem
          · exact absurd rfl (a10 _ hmem)
          · exact absurd rfl (b8 _ hmem)
        · exact absurd rfl (c8 _ hmem)
      · rw [hcb] at hmem
        by_cases hst : s.shutdownCbStored
        · exact hst
        · rw [if_neg (by simpa using hst)] at hmem
          simp at hmem
    · intro hst
      refine List.mem_append.mpr (Or.inr ?_)
      rw [hcb, if_pos hst]
      simp

theorem shutdownActiveSlots_scalars (s : DBMState) : ∀ n,
    (shutdownActiveSlots s n).1.shutdownCbStored = s.shutdownCbStored ∧
    (shutdownActiveSlots s n).1.mgrState = s.mgrState := by
  intro n
  induction n with
  | zero => exact ⟨rfl, rfl⟩
  | succ n ih =>
    obtain ⟨ih1, ih2⟩ := ih
    simp only [shutdownActiveSlots]
    cases lget none (shutdownActiveSlots s n).1.activeExtents n with
    | none => exact ⟨ih1, ih2⟩
    | some id => exact ⟨ih1, ih2⟩

theorem shutdownYoungQueue_scalars : ∀ (fuel : Nat) (s : DBMState),
    (shutdownYoungQueue s fuel).1.shutdownCbStored = s.shutdownCbStored ∧
    (shutdownYoungQueue s fuel).1.mgrState = s.mgrState := by
  intro fuel
  induction fuel with
  | zero => exact fun s => ⟨rfl, rfl⟩
  | succ n ih =>
    intro s
    simp only [shutdownYoungQueue]
    cases s.youngQueue with
    | nil => exact ⟨rfl, rfl⟩
    | cons id rest =>
      obtain ⟨i1, i2⟩ := ih
        { s with youngQueue := rest, entries := aErase s.entries id }
      exact ⟨i1, i2⟩

theorem shutdownPq_scalars : ∀ (fuel : Nat) (s : DBMState),
    (shutdownPq s fuel).1.shutdownCbStored = s.shutdownCbStored ∧
    (shutdownPq s fuel).1.mgrState = s.mgrState := by
  intro fuel
  induction fuel with
  | zero => exact fun s => ⟨rfl, rfl⟩
  | succ n ih =>
    intro s
    simp only [shutdownPq]
    cases pqSelect s s.gcPq with
    | none => exact ⟨rfl, rfl⟩
    | some id =>
      obtain ⟨i1, i2⟩ := ih
        { s with gcPq := s.gcPq.erase id, entries := aErase s.entries id }
      exact ⟨i1, i2⟩

/-- Whenever actually_shutdown completes, the manager is shut_down and the
stored shutdown callback is invoked exactly when one was stored. -/
theorem actuallyShutdown_cb (c : Config) (x st : DBMState)
    (evs : List Event) (h : actuallyShutdown c x = some (st, evs)) :
    st.mgrState = .shutDown ∧
    st.shutdownCbStored = x.shutdownCbStored ∧
    (x.shutdownCbStored = true → Event.shutdownCbInvoked ∈ evs) := by
  unfold actuallyShutdown at h
  split at h
  · simp at h
  · simp only [ne_eq] at h
    split at h
    · simp at h
    · rw [Option.some.injEq, Prod.mk.injEq] at h
      obtain ⟨hst, hevs⟩ := h
      obtain ⟨a1, a2⟩ :=
        shutdownActiveSlots_scalars { x with mgrState := MgrState.shutDown }
          c.numActive
      obtain ⟨b1, b2⟩ := shutdownYoungQueue_scalars _ _
      obtain ⟨c1, c2⟩ := shutdownPq_scalars _ _
      have hcb : st.shutdownCbStored = x.shutdownCbStored := by
        rw [← hst, c1, b1, a1]
      have hmgr : st.mgrState = MgrState.shutDown := by
        rw [← hst, c2, b2, a2]
      refine ⟨hmgr, hcb, ?_⟩
      intro hstored
      rw [← hevs]
      refine List.mem_append.mpr (Or.inr ?_)
      rw [← hst] at hcb
      rw [hcb, hstored]
      simp

/-! ## Claim C6: shutdown -/

/-- C6: shutdown(cb), called in state ready, moves to shutting_down; it
returns true after synchronously running actually_shutdown exactly when
the GC step is ready, and otherwise stores the callback and returns false,
in which case the GC write phase, on returning the step to ready while a
shutdown is pending, runs actually_shutdown, which invokes the stored
callback. -/
theorem claim_C6 (c : Config) (now : Nat) (s : DBMState)
    (hm : s.mgrState = .ready) :
    (s.gcStep ≠ .ready →
      shutdown c s = some (false,
        { s with mgrState := .shuttingDown, shutdownCbStored := true }, [])) ∧
    (s.gcStep = .ready →
      ∀ st evs, actuallyShutdown c
          { s with mgrState := .shuttingDown, shutdownCbStored := false } =
            some (st, evs) →
        shutdown c s = some (true, st, evs) ∧ st.mgrState = .shutDown) ∧
    (∀ s1 r, s1.mgrState = .shuttingDown → s1.gcStep = .write →
      s1.shutdownCbStored = true → runGcStep c now s1 = some r →
      Event.shutdownCbInvoked ∈ r.2 ∧ r.1.mgrState = .shutDown) := by
  refine ⟨?_, ?_, ?_⟩
  · intro hstep
    unfold shutdown
    rw [if_neg (by simp [hm]), if_pos (by simpa using hstep)]
  · intro hstep st evs hact
    unfold shutdown
    rw [if_neg (by simp [hm]), if_neg (by simpa using hstep)]
    rw [hact]
    refine ⟨rfl, ?_⟩
    exact (actuallyShutdown_cb c _ st evs hact).1
  · intro s1 r hm1 hstep1 hcb1 hrun
    unfold runGcStep at hrun
    rw [hstep1] at hrun
    unfold gcWriteCase at hrun
    cases hmue : markUnyoungEntries c now s1 with
    | none => rw [hmue] at hrun; simp at hrun
    | some s2 =>
      rw [hmue] at hrun
      simp only at hrun
      split at hrun
      · simp at hrun
      · split at hrun
        · simp at hrun
        · have hfields := markUnyoungEntries_fields c now s1 s2 hmue
          have hm2 : s2.mgrState = MgrState.shuttingDown := by
            rw [hfields.2.2.2.2.2.2.2.2.2.2.1, hm1]
          rw [if_pos (by simpa using hm2)] at hrun
          cases hact : actuallyShutdown c { s2 with gcStep := GCStepKind.ready } with
          | none => rw [hact] at hrun; simp at hrun
          | some p =>
            rw [hact] at hrun
            simp only [Option.some.injEq] at hrun
            subst hrun
            have hcb2 : ({ s2 with gcStep := GCStepKind.ready } : DBMState).shutdownCbStored = true := by
              have := hfields.2.2.2.2.2.2.2.2.2.1
              simp only []
              rw [this, hcb1]
            obtain ⟨q1, q2, q3⟩ :=
              actuallyShutdown_cb c { s2 with gcStep := GCStepKind.ready }
                p.1 p.2 (by rw [hact])
            exact ⟨q3 hcb2, q1⟩

/-- A ready manager whose GC is in the read phase. -/
def s6r : DBMState := { wstate0 with gcStep := .read }

/-- A draining manager at GC write completion with a stored shutdown
callback. -/
def s6w : DBMState :=
  { wstate0 with
    mgrState := .shuttingDown, gcStep := .write,
    shutdownCbStored := true }

/-- C6 witness: shutdown during the GC read phase stores the callback and
returns false; the GC write completion then invokes it. -/
theorem claim_C6_witness :
    shutdown wcfg s6r =
      some (false,
        { s6r with mgrState := .shuttingDown, shutdownCbStored := true },
        []) ∧
    Event.shutdownCbInvoked ∈
      ((runGcStep wcfg 0 s6w).getD (wstate0, [])).2 := by
  constructor
  · exact (claim_C6 wcfg 0 s6r rfl).1 (by decide)
  · cases hr : runGcStep wcfg 0 s6w with
    | none => exact absurd hr (by decide)
    | some r =>
      have h := (claim_C6 wcfg 0 wstate0 rfl).2.2 s6w r rfl rfl rfl hr
      simpa using h.1

/-! ## Claim C8: disable_gc and the never-invoked stored callback -/

/-- A ready manager in GC read phase with one outstanding read whose
victim was already freed by a mark_garbage cascade. -/
def s8 : DBMState := { wstate0 with gcStep := .read, refcount := 1 }

/-- The state after disable_gc stored its callback. -/
def s8a : DBMState :=
  { s8 with shouldBeStopped := true, gcDisableCbStored := true }

/-- The state after the last GC read completes. -/
def s8b : DBMState := { s8a with refcount := 0, gcStep := .readLockAvailable }

/-- The state after the GC state machine returns to ready. -/
def s8c : DBMState := { s8b with gcStep := .ready }

/-- C8: disable_gc called while the GC step is gc_read stores the callback
and returns false, as the claim says; but the GC state machine never
invokes the stored callback when the step next reaches ready - the run
from gc_read back to gc_ready emits no gc-disabled callback invocation
and leaves the callback stored, and a further dispatch at ready is a
no-op.  This contradicts both the claim and the code's own comment that
the callback is always called. -/
theorem claim_C8_bug :
    disableGc s8 = some (false, s8a, []) ∧
    runGcStep wcfg 0 s8a = some (s8b, [Event.lockRequested]) ∧
    runGcStep wcfg 0 s8b = some (s8c, [Event.mutexUnlocked]) ∧
    runGcStep wcfg 0 s8c = some (s8c, []) ∧
    s8c.gcStep = .ready ∧
    s8c.gcDisableCbStored = true ∧
    Event.gcDisabledCbInvoked ∉ [Event.lockRequested] ∧
    Event.gcDisabledCbInvoked ∉ [Event.mutexUnlocked] ∧
    Event.gcDisabledCbInvoked ∉ ([] : List Event) := by
  refine ⟨by decide, by decide, by decide, by decide, by decide, by decide,
    by decide, by decide, by decide⟩

/-! ## Claim C7: actually_shutdown -/

/-- A configuration that shrank from two active slots to one. -/
def c7cfg : Config := { wcfg with maxActive := 2, numActive := 1 }

/-- A leftover active entry in slot 1, at or above num_active_data_extents. -/
def c7e : GCEntry :=
  { offset := 10, state := .active, garray := [true, false], timestamp := 0 }

/-- A draining manager still holding the leftover entry in high slot 1. -/
def c7s : DBMState :=
  { wstate0 with
    mgrState := .shuttingDown,
    activeExtents := [none, some 5], blocksInActiveExtent := [0, 1],
    entries := [(5, c7e)] }

/-- C7 counterexample: actually_shutdown leaves the leftover entry of
active slot 1 (an index at or above num_active_data_extents = 1) alive in
the entry table and in its slot, contradicting the claim that every
active_extents entry, including leftover high slots, is destroyed. -/
theorem claim_C7_counterexample :
    (actuallyShutdown c7cfg c7s).map
      (fun r => (aGet r.1.entries 5, lget none r.1.activeExtents 1,
                 r.1.mgrState)) =
      some (some c7e, some 5, MgrState.shutDown) := by decide

/-- C7 amended: actually_shutdown moves the state to shut_down, requires
that no reconstructed entries remain, destroys the entries held in
active_extents slots at indices strictly below num_active_data_extents
(slots at or above num_active_data_extents are left untouched), then every
entry in the young queue, then every entry in the priority queue, and
finally invokes the stored shutdown callback if one exists. -/
theorem claim_C7_amended (c : Config) (s : DBMState)
    (hm : s.mgrState = .shuttingDown) (hnd : keysNodup s.entries) :
    (s.reconstructedExtents ≠ [] → actuallyShutdown c s = none) ∧
    (s.reconstructedExtents = [] →
      ∃ st evs, actuallyShutdown c s = some (st, evs) ∧
        st.mgrState = .shutDown ∧
        st.youngQueue = [] ∧
        st.gcPq = [] ∧
        (∀ i, i < c.numActive → lget none st.activeExtents i = none) ∧
        (∀ i, c.numActive ≤ i →
          lget none st.activeExtents i = lget none s.activeExtents i) ∧
        (∀ id, aGet st.entries id =
          if id ∈ shutdownVictims c s then none else aGet s.entries id) ∧
        st.shutdownCbStored = s.shutdownCbStored ∧
        (Event.shutdownCbInvoked ∈ evs ↔ s.shutdownCbStored = true)) := by
  constructor
  · intro hrec
    unfold actuallyShutdown
    rw [if_neg (by simp [hm])]
    simp only [ne_eq]
    rw [if_pos (by simpa using hrec)]
  · intro hrec
    exact actuallyShutdown_spec c s hm hrec hnd

/-- A young entry awaiting promotion. -/
def c7ey : GCEntry :=
  { offset := 2, state := .young, garray := [true, false], timestamp := 3 }

/-- An old entry in the priority queue. -/
def c7eo : GCEntry :=
  { offset := 4, state := .old, garray := [true, false], timestamp := 1 }

/-- An active entry in slot 0. -/
def c7ea : GCEntry :=
  { offset := 6, state := .active, garray := [false, true], timestamp := 0 }

/-- A draining manager with one active, one young and one old entry and a
stored shutdown callback. -/
def c7w : DBMState :=
  { wstate0 with
    mgrState := .shuttingDown, shutdownCbStored := true,
    activeExtents := [some 3, none], blocksInActiveExtent := [1, 0],
    entries := [(1, c7ey), (2, c7eo), (3, c7ea)],
    youngQueue := [1], gcPq := [2] }

/-- C7 witness: on the concrete draining manager, all three entries are
destroyed, both queues drain, the high slot is untouched and the stored
callback is invoked. -/
theorem claim_C7_witness :
    ((actuallyShutdown c7cfg c7w).getD (wstate0, [])).1.youngQueue = [] ∧
    ((actuallyShutdown c7cfg c7w).getD (wstate0, [])).1.gcPq = [] ∧
    aGet ((actuallyShutdown c7cfg c7w).getD (wstate0, [])).1.entries 1 =
      none ∧
    aGet ((actuallyShutdown c7cfg c7w).getD (wstate0, [])).1.entries 2 =
      none ∧
    aGet ((actuallyShutdown c7cfg c7w).getD (wstate0, [])).1.entries 3 =
      none ∧
    lget none
      ((actuallyShutdown c7cfg c7w).getD (wstate0, [])).1.activeExtents 1 =
      none ∧
    Event.shutdownCbInvoked ∈
      ((actuallyShutdown c7cfg c7w).getD (wstate0, [])).2 := by
  obtain ⟨st, evs, heq, h1, h2, h3, h4, h5, h6, h7, h8⟩ :=
    (claim_C7_amended c7cfg c7w rfl (by decide)).2 rfl
  rw [heq]
  simp only [Option.getD_some]
  refine ⟨h2, h3, ?_, ?_, ?_, ?_, h8.mpr rfl⟩
  · rw [h6 1]
    decide
  · rw [h6 2]
    decide
  · rw [h6 3]
    decide
  · rw [h5 1 (by decide)]
    decide

/-! ## Claim C5: young promotion -/

theorem removeLastUnyoungEntry_len (c : Config) (s t : DBMState)
    (h : removeLastUnyoungEntry c s = some t) :
    t.youngQueue.length + 1 = s.youngQueue.length := by
  obtain ⟨id, rest, e, hyq, hge, hst, ht⟩ :=
    removeLastUnyoungEntry_inv c s t h
  subst ht
  simp [hyq]

/-- With no fuel pressure the first loop is insensitive to the exact fuel. -/
theorem muePhase1_fuel (c : Config) : ∀ (fuel : Nat) (s : DBMState),
    s.youngQueue.length ≤ fuel →
    muePhase1 c fuel s = muePhase1 c s.youngQueue.length s := by
  intro fuel
  induction fuel with
  | zero =>
    intro s hf
    have h0 : s.youngQueue.length = 0 := by omega
    rw [h0]
  | succ n ih =>
    intro s hf
    by_cases hc : s.youngQueue.length > c.gcYoungMaxSize
    · have hpos : 0 < s.youngQueue.length := by omega
      obtain ⟨k, hk⟩ : ∃ k, s.youngQueue.length = k + 1 :=
        ⟨s.youngQueue.length - 1, by omega⟩
      rw [hk]
      simp only [muePhase1]
      rw [if_pos (by omega), if_pos hc]
      cases hr : removeLastUnyoungEntry c s with
      | none => rfl
      | some t =>
        simp only [Option.some_bind]
        have hlen := removeLastUnyoungEntry_len c s t hr
        have htn : t.youngQueue.length ≤ n := by omega
        have htk : t.youngQueue.length = k := by omega
        rw [ih t htn, htk]
    · simp only [muePhase1]
      rw [if_neg hc]
      cases hk : s.youngQueue.length with
      | zero => simp only [muePhase1]; rw [if_neg hc]
      | succ k =>
        simp only [muePhase1]
        rw [if_neg hc]

theorem muePhase2_fuel (c : Config) (now : Nat) :
    ∀ (fuel : Nat) (s : DBMState),
    s.youngQueue.length ≤ fuel →
    muePhase2 c now fuel s = muePhase2 c now s.youngQueue.length s := by
  intro fuel
  induction fuel with
  | zero =>
    intro s hf
    have h0 : s.youngQueue.length = 0 := by omega
    rw [h0]
  | succ n ih =>
    intro s hf
    by_cases hc : youngHeadTimedOut c now s = true
    · have hne : s.youngQueue ≠ [] := by
        intro hnil
        unfold youngHeadTimedOut at hc
        rw [hnil] at hc
        simp at hc
      have hpos : 0 < s.youngQueue.length := List.length_pos.mpr hne
      obtain ⟨k, hk⟩ : ∃ k, s.youngQueue.length = k + 1 :=
        ⟨s.youngQueue.length - 1, by omega⟩
      rw [hk]
      simp only [muePhase2]
      rw [if_pos hc, if_pos hc]
      cases hr : removeLastUnyoungEntry c s with
      | none => rfl
      | some t =>
        simp only [Option.some_bind]
        have hlen := removeLastUnyoungEntry_len c s t hr
        have htn : t.youngQueue.length ≤ n := by omega
        have htk : t.youngQueue.length = k := by omega
        rw [ih t htn, htk]
    · simp only [muePhase2]
      rw [if_neg hc]
      cases hk : s.youngQueue.length with
      | zero => simp only [muePhase2]; rw [if_neg hc]
      | succ k =>
        simp only [muePhase2]
        rw [if_neg hc]

theorem muePhase1_of_le (c : Config) (fuel : Nat) (s : DBMState)
    (h : ¬ s.youngQueue.length > c.gcYoungMaxSize) :
    muePhase1 c fuel s = some s := by
  cases fuel <;> simp only [muePhase1] <;> rw [if_neg h]

theorem muePhase2_of_not (c : Config) (now : Nat) (fuel : Nat)
    (s : DBMState) (h : ¬ youngHeadTimedOut c now s = true) :
    muePhase2 c now fuel s = some s := by
  cases fuel <;> simp only [muePhase2] <;> rw [if_neg h]

/-- The while-loop unfolding of mark_unyoung_entries: while the young
queue is over-full or its head has timed out, it pops one entry and
continues. -/
theorem markUnyoungEntries_unfold (c : Config) (now : Nat) (s : DBMState) :
    ((s.youngQueue.length > c.gcYoungMaxSize ∨
        youngHeadTimedOut c now s = true) →
      markUnyoungEntries c now s =
        (removeLastUnyoungEntry c s).bind (markUnyoungEntries c now)) ∧
    (¬ (s.youngQueue.length > c.gcYoungMaxSize ∨
        youngHeadTimedOut c now s = true) →
      markUnyoungEntries c now s = some s) := by
  constructor
  · intro hcond
    by_cases hc1 : s.youngQueue.length > c.gcYoungMaxSize
    · have hpos : 0 < s.youngQueue.length := by omega
      obtain ⟨k, hk⟩ : ∃ k, s.youngQueue.length = k + 1 :=
        ⟨s.youngQueue.length - 1, by omega⟩
      unfold markUnyoungEntries
      rw [hk]
      simp only [muePhase1]
      rw [if_pos hc1]
      cases hr : removeLastUnyoungEntry c s with
      | none => rfl
      | some t =>
        simp only [Option.some_bind]
        have hlen := removeLastUnyoungEntry_len c s t hr
        have htk : t.youngQueue.length = k := by omega
        rw [muePhase1_fuel c k t (by omega)]
    · have hc2 : youngHeadTimedOut c now s = true := by
        rcases hcond with hcond | hcond
        · exact absurd hcond hc1
        · exact hcond
      have hne : s.youngQueue ≠ [] := by
        intro hnil
        unfold youngHeadTimedOut at hc2
        rw [hnil] at hc2
        simp at hc2
      have hpos : 0 < s.youngQueue.length := List.length_pos.mpr hne
      obtain ⟨k, hk⟩ : ∃ k, s.youngQueue.length = k + 1 :=
        ⟨s.youngQueue.length - 1, by omega⟩
      unfold markUnyoungEntries
      rw [muePhase1_of_le c _ s hc1]
      simp only [Option.some_bind]
      rw [hk]
      simp only [muePhase2]
      rw [if_pos hc2]
      cases hr : removeLastUnyoungEntry c s with
      | none => rfl
      | some t =>
        simp only [Option.some_bind]
        have hlen := removeLastUnyoungEntry_len c s t hr
        have htk : t.youngQueue.length = k := by omega
        have htle : ¬ t.youngQueue.length > c.gcYoungMaxSize := by omega
        rw [muePhase1_of_le c _ t htle]
        simp only [Option.some_bind]
        rw [htk]
  · intro hcond
    push_neg at hcond
    obtain ⟨hc1, hc2⟩ := hcond
    unfold markUnyoungEntries
    rw [muePhase1_of_le c _ s (by omega)]
    simp only [Option.some_bind]
    rw [muePhase2_of_not c now _ s (by exact hc2)]

theorem aSet_aSet {α : Type} (l : List (Nat × α)) (k : Nat) (v w : α) :
    aSet (aSet l k v) k w = aSet l k w := by
  induction l with
  | nil => simp [aSet]
  | cons p l ih =>
    obtain ⟨k1, v1⟩ := p
    by_cases h : k1 = k
    · simp [aSet, h]
    · simp [aSet, h, ih]

/-- C5 counterexample: with blocks_per_extent 2, allocations at times 5
and 6 fill extent 0 (timestamp 6); the clock then advances to 2000, far
beyond the 1000-microsecond young time limit, and a single subsequent
allocation (which does not fill its extent) leaves the timed-out young
entry in the young queue and the priority queue empty, contradicting the
claim that promotion runs after every allocation and that any single
subsequent allocation moves the young entry into the priority queue. -/
theorem claim_C5_counterexample :
    (((gimme wcfg 5 wstate0).bind fun r => gimme wcfg 6 r.2).bind
        fun r => gimme wcfg 2000 r.2).map
        (fun r => (r.1, r.2.youngQueue, r.2.gcPq)) =
      some (2, [0], []) ∧
    elapsedMicros 2000 6 > wcfg.gcYoungTimelimitMicros := by
  constructor
  · decide
  · decide

/-- C5 amended: mark_unyoung_entries runs after every allocation that
fills (and thereby deactivates) an extent, and after every GC write
completion - not after every allocation.  Whenever it runs, while the
young queue size exceeds GC_YOUNG_EXTENT_MAX_SIZE or its head entry is
older than GC_YOUNG_EXTENT_TIMELIMIT_MICROS, the head is popped,
transitioned young to old, pushed into the priority queue, and
old_total_blocks / old_garbage_blocks are updated.  After filling an
extent and advancing the clock past the time limit, the next allocation
that fills an extent (or the next GC write completion) moves that young
entry into the priority queue. -/
theorem claim_C5_amended (c : Config) (now : Nat) :
    (∀ s : DBMState,
      (s.youngQueue.length > c.gcYoungMaxSize ∨
          youngHeadTimedOut c now s = true) →
        markUnyoungEntries c now s =
          (removeLastUnyoungEntry c s).bind (markUnyoungEntries c now)) ∧
    (∀ s : DBMState,
      ¬ (s.youngQueue.length > c.gcYoungMaxSize ∨
          youngHeadTimedOut c now s = true) →
        markUnyoungEntries c now s = some s) ∧
    (∀ (s : DBMState) (id : Nat) (rest : List Nat) (e : GCEntry),
      s.youngQueue = id :: rest → aGet s.entries id = some e →
      e.state = .young →
      removeLastUnyoungEntry c s = some
        { s with youngQueue := rest,
                 entries := aSet s.entries id { e with state := .old },
                 gcPq := s.gcPq ++ [id],
                 oldTotalBlocks := s.oldTotalBlocks + c.bpe,
                 oldGarbageBlocks :=
                   s.oldGarbageBlocks + bcount e.garray }) ∧
    (∀ (s0 s : DBMState) (id : Nat) (e : GCEntry) (r : Nat × DBMState),
      ensureActive c s0 = some s →
      lget none s.activeExtents s.nextActiveExtent = some id →
      aGet s.entries id = some e →
      lget 0 s.blocksInActiveExtent s.nextActiveExtent + 1 ≠ c.bpe →
      gimme c now s0 = some r →
      r.2.youngQueue = s.youngQueue ∧ r.2.gcPq = s.gcPq ∧
      r.2.oldTotalBlocks = s.oldTotalBlocks ∧
      r.2.oldGarbageBlocks = s.oldGarbageBlocks) ∧
    (∀ (s0 s : DBMState) (id : Nat) (e : GCEntry) (r : Nat × DBMState),
      ensureActive c s0 = some s →
      lget none s.activeExtents s.nextActiveExtent = some id →
      aGet s.entries id = some e →
      lget 0 s.blocksInActiveExtent s.nextActiveExtent + 1 = c.bpe →
      gimme c now s0 = some r →
      ∃ s2, markUnyoungEntries c now
          { s with
            entries := aSet s.entries id
              { e with
                garray := lset e.garray
                  (lget 0 s.blocksInActiveExtent s.nextActiveExtent) false,
                state := .young, timestamp := now },
            blocksInActiveExtent := lset s.blocksInActiveExtent
              s.nextActiveExtent
              (lget 0 s.blocksInActiveExtent s.nextActiveExtent + 1),
            youngQueue := s.youngQueue ++ [id],
            activeExtents := lset s.activeExtents s.nextActiveExtent none } =
          some s2 ∧
        r.2 = { s2 with
          nextActiveExtent :=
            advanceNextAux c s2.activeExtents c.maxActive
              s.nextActiveExtent } ∧
        r.1 = e.offset +
          lget 0 s.blocksInActiveExtent s.nextActiveExtent * c.blockSize) ∧
    (∀ (s1 : DBMState) (r : DBMState × List Event),
      s1.gcStep = .write → s1.mgrState ≠ .shuttingDown →
      runGcStep c now s1 = some r →
      ∃ s2, markUnyoungEntries c now s1 = some s2 ∧
        r = ({ s2 with gcStep := .ready }, [])) := by
  refine ⟨fun s => (markUnyoungEntries_unfold c now s).1,
    fun s => (markUnyoungEntries_unfold c now s).2, ?_, ?_, ?_, ?_⟩
  · intro s id rest e hyq hge hst
    unfold removeLastUnyoungEntry
    rw [hyq]
    simp only [hge]
    rw [if_neg (by simp [hst])]
  · intro s0 s id e r hea hid hent hnf hrun
    unfold gimme at hrun
    rw [hea] at hrun
    simp only [hid, hent] at hrun
    by_cases g1 : e.state ≠ EntryState.active
    · rw [if_pos g1] at hrun; simp at hrun
    rw [if_neg g1] at hrun
    by_cases g2 : bcount e.garray = 0
    · rw [if_pos g2] at hrun; simp at hrun
    rw [if_neg g2] at hrun
    by_cases g3 : lget 0 s.blocksInActiveExtent s.nextActiveExtent ≥ c.bpe
    · rw [if_pos g3] at hrun; simp at hrun
    rw [if_neg g3] at hrun
    by_cases g4 : lget false e.garray
        (lget 0 s.blocksInActiveExtent s.nextActiveExtent) = false
    · rw [if_pos g4] at hrun; simp at hrun
    rw [if_neg g4] at hrun
    rw [if_neg hnf] at hrun
    simp only [Option.some.injEq] at hrun
    rw [← hrun]
    exact ⟨rfl, rfl, rfl, rfl⟩
  · intro s0 s id e r hea hid hent hf hrun
    unfold gimme at hrun
    rw [hea] at hrun
    simp only [hid, hent] at hrun
    by_cases g1 : e.state ≠ EntryState.active
    · rw [if_pos g1] at hrun; simp at hrun
    rw [if_neg g1] at hrun
    by_cases g2 : bcount e.garray = 0
    · rw [if_pos g2] at hrun; simp at hrun
    rw [if_neg g2] at hrun
    by_cases g3 : lget 0 s.blocksInActiveExtent s.nextActiveExtent ≥ c.bpe
    · rw [if_pos g3] at hrun; simp at hrun
    rw [if_neg g3] at hrun
    by_cases g4 : lget false e.garray
        (lget 0 s.blocksInActiveExtent s.nextActiveExtent) = false
    · rw [if_pos g4] at hrun; simp at hrun
    rw [if_neg g4] at hrun
    rw [if_pos hf] at hrun
    by_cases g5 : bcount (lset e.garray
        (lget 0 s.blocksInActiveExtent s.nextActiveExtent) false) = c.bpe
    · rw [if_pos g5] at hrun; simp at hrun
    rw [if_neg g5] at hrun
    rw [aSet_aSet] at hrun
    cases hmue : markUnyoungEntries c now
        { s with
          entries := aSet s.entries id
            { e with
              garray := lset e.garray
                (lget 0 s.blocksInActiveExtent
                  s.nextActiveExtent) false,
              state := .young, timestamp := now },
          blocksInActiveExtent := lset s.blocksInActiveExtent
            s.nextActiveExtent
            (lget 0 s.blocksInActiveExtent s.nextActiveExtent + 1),
          youngQueue := s.youngQueue ++ [id],
          activeExtents :=
            lset s.activeExtents s.nextActiveExtent none } with
    | none => rw [hmue] at hrun; simp at hrun
    | some s2 =>
      rw [hmue] at hrun
      simp only [Option.some.injEq] at hrun
      refine ⟨s2, rfl, ?_, ?_⟩
      · rw [← hrun]
      · rw [← hrun]
  · intro s1 r hstep hns hrun
    unfold runGcStep at hrun
    rw [hstep] at hrun
    unfold gcWriteCase at hrun
    cases hmue : markUnyoungEntries c now s1 with
    | none => rw [hmue] at hrun; simp at hrun
    | some s2 =>
      rw [hmue] at hrun
      simp only at hrun
      split at hrun
      · simp at hrun
      · split at hrun
        · simp at hrun
        · have hm2 : s2.mgrState = s1.mgrState :=
            (markUnyoungEntries_fields c now s1 s2 hmue).2.2.2.2.2.2.2.2.2.2.1
          rw [if_neg (fun hcc => hns (by rw [← hm2]; exact hcc))] at hrun
          rw [Option.some.injEq] at hrun
          exact ⟨s2, rfl, hrun.symm⟩

/-- A manager holding a young entry that filled at time 6. -/
def s5 : DBMState :=
  { wstate0 with
    entries := [(0, { offset := 0, state := .young,
                      garray := [false, false], timestamp := 6 })],
    youngQueue := [0] }

/-- C5 witness: at time 2000 the young entry has timed out, so a run of
mark_unyoung_entries pops it, makes it old and pushes it into the priority
queue, adding blocks_per_extent to old_total_blocks and its garbage count
to old_garbage_blocks. -/
theorem claim_C5_witness :
    markUnyoungEntries wcfg 2000 s5 =
      (removeLastUnyoungEntry wcfg s5).bind (markUnyoungEntries wcfg 2000) ∧
    (markUnyoungEntries wcfg 2000 s5).map
        (fun t => (t.youngQueue, t.gcPq, t.oldTotalBlocks,
                   t.oldGarbageBlocks)) =
      some ([], [0], 2, 0) := by
  constructor
  · exact (claim_C5_amended wcfg 2000).1 s5 (Or.inr (by decide))
  · decide

/-! ## Claim C1: the old-block statistics invariant -/

/-- Contribution of one entry to old_total_blocks in the code's
accounting: only entries in state old count. -/
def contribT (c : Config) (e : GCEntry) : Int :=
  if e.state = .old then (c.bpe : Int) else 0

/-- Contribution of one entry to old_garbage_blocks in the code's
accounting: only entries in state old count. -/
def contribG (e : GCEntry) : Int :=
  if e.state = .old then (bcount e.garray : Int) else 0

/-- The statistics invariant the code maintains: the counters equal their
definitional sums over entries in state old. -/
def statsInv (c : Config) (s : DBMState) : Prop :=
  s.oldTotalBlocks = entrySum (contribT c) s.entries ∧
  s.oldGarbageBlocks = entrySum contribG s.entries

instance (c : Config) (s : DBMState) : Decidable (statsInv c s) := by
  unfold statsInv; infer_instance

/-- Contribution following the claim's words: entries in state old or
in_gc count toward old_total_blocks. -/
def contribTClaim (c : Config) (e : GCEntry) : Int :=
  if e.state = .old ∨ e.state = .inGc then (c.bpe : Int) else 0

/-- Contribution following the claim's words: entries in state old or
in_gc count toward old_garbage_blocks. -/
def contribGClaim (e : GCEntry) : Int :=
  if e.state = .old ∨ e.state = .inGc then (bcount e.garray : Int) else 0

/-- The invariant exactly as the claim states it, over entries in state
old or in_gc. -/
def claimStatsInvC1 (c : Config) (s : DBMState) : Prop :=
  s.oldTotalBlocks = entrySum (contribTClaim c) s.entries ∧
  s.oldGarbageBlocks = entrySum contribGClaim s.entries

instance (c : Config) (s : DBMState) : Decidable (claimStatsInvC1 c s) := by
  unfold claimStatsInvC1; infer_instance

/-- Well-formedness needed by the statistics invariant: unique entry-table
keys, positive block geometry, and extents handed out by the extent
manager not shadowing existing entries. -/
def WFC1 (c : Config) (s : DBMState) : Prop :=
  keysNodup s.entries ∧ 0 < c.blockSize ∧ 0 < c.bpe ∧
  (∀ f ∈ s.freshExtents, aGet s.entries f = none)

instance (c : Config) (s : DBMState) : Decidable (WFC1 c s) := by
  unfold WFC1; infer_instance

/-- The operations of the claim, as one step relation: allocation, young
promotion, mark_garbage, one GC state-machine dispatch (not folding in the
shutdown teardown a pending shutdown triggers from the write step), and
start_existing. -/
inductive DBMStep (c : Config) (now : Nat) : DBMState → DBMState → Prop
  | alloc (s : DBMState) (r : Nat × DBMState) :
      gimme c now s = some r → DBMStep c now s r.2
  | mark (s : DBMState) (off : Nat) (r : DBMState × List Event) :
      markGarbage c s off = some r → DBMStep c now s r.1
  | promote (s t : DBMState) :
      markUnyoungEntries c now s = some t → DBMStep c now s t
  | gcstep (s : DBMState) (r : DBMState × List Event) :
      (s.gcStep = .write → s.mgrState ≠ .shuttingDown) →
      runGcStep c now s = some r → DBMStep c now s r.1
  | startEx (mb : Metablock) (s t : DBMState) :
      startExisting c mb s = some t → DBMStep c now s t

theorem blockIndex_lt (c : Config) (hB : 0 < c.blockSize)
    (hbpe : 0 < c.bpe) (off : Nat) : c.blockIndex off < c.bpe := by
  unfold Config.blockIndex
  have hE : 0 < c.extentSize := by
    unfold Config.extentSize
    exact Nat.mul_pos hbpe hB
  have hmod : off % c.extentSize < c.extentSize := Nat.mod_lt off hE
  rw [Nat.div_lt_iff_lt_mul hB]
  calc off % c.extentSize < c.extentSize := hmod
    _ = c.bpe * c.blockSize := rfl

theorem removeLastUnyoungEntry_statsInv (c : Config) (s t : DBMState)
    (hnd : keysNodup s.entries) (hinv : statsInv c s)
    (h : removeLastUnyoungEntry c s = some t) :
    statsInv c t ∧ keysNodup t.entries := by
  obtain ⟨id, rest, e, hyq, hge, hst, ht⟩ :=
    removeLastUnyoungEntry_inv c s t h
  subst ht
  obtain ⟨h1, h2⟩ := hinv
  refine ⟨⟨?_, ?_⟩, keysNodup_aSet _ _ _ hnd⟩
  · rw [entrySum_aSet_present (contribT c) s.entries id e _ hge hnd]
    simp only [contribT, hst]
    rw [h1]
    simp [contribT]
  · rw [entrySum_aSet_present contribG s.entries id e _ hge hnd]
    simp only [contribG, hst]
    rw [h2]
    simp [contribG]

theorem muePhase1_statsInv (c : Config) : ∀ (fuel : Nat) (s t : DBMState),
    keysNodup s.entries → statsInv c s → muePhase1 c fuel s = some t →
    statsInv c t ∧ keysNodup t.entries := by
  intro fuel
  induction fuel with
  | zero =>
    intro s t hnd hinv h
    unfold muePhase1 at h
    split at h
    · simp at h
    · rw [Option.some.injEq] at h
      subst h
      exact ⟨hinv, hnd⟩
  | succ n ih =>
    intro s t hnd hinv h
    unfold muePhase1 at h
    split at h
    · cases hr : removeLastUnyoungEntry c s with
      | none => rw [hr] at h; simp at h
      | some s1 =>
        rw [hr] at h
        simp only [Option.some_bind] at h
        obtain ⟨hinv1, hnd1⟩ :=
          removeLastUnyoungEntry_statsInv c s s1 hnd hinv hr
        exact ih s1 t hnd1 hinv1 h
    · rw [Option.some.injEq] at h
      subst h
      exact ⟨hinv, hnd⟩

theorem muePhase2_statsInv (c : Config) (now : Nat) :
    ∀ (fuel : Nat) (s t : DBMState),
    keysNodup s.entries → statsInv c s → muePhase2 c now fuel s = some t →
    statsInv c t ∧ keysNodup t.entries := by
  intro fuel
  induction fuel with
  | zero =>
    intro s t hnd hinv h
    unfold muePhase2 at h
    split at h
    · simp at h
    · rw [Option.some.injEq] at h
      subst h
      exact ⟨hinv, hnd⟩
  | succ n ih =>
    intro s t hnd hinv h
    unfold muePhase2 at h
    split at h
    · cases hr : removeLastUnyoungEntry c s with
      | none => rw [hr] at h; simp at h
      | some s1 =>
        rw [hr] at h
        simp only [Option.some_bind] at h
        obtain ⟨hinv1, hnd1⟩ :=
          removeLastUnyoungEntry_statsInv c s s1 hnd hinv hr
        exact ih s1 t hnd1 hinv1 h
    · rw [Option.some.injEq] at h
      subst h
      exact ⟨hinv, hnd⟩

theorem markUnyoungEntries_statsInv (c : Config) (now : Nat)
    (s t : DBMState) (hnd : keysNodup s.entries) (hinv : statsInv c s)
    (h : markUnyoungEntries c now s = some t) :
    statsInv c t ∧ keysNodup t.entries := by
  unfold markUnyoungEntries at h
  cases h1 : muePhase1 c s.youngQueue.length s with
  | none => rw [h1] at h; simp at h
  | some s1 =>
    rw [h1] at h
    simp only [Option.some_bind] at h
    obtain ⟨hinv1, hnd1⟩ := muePhase1_statsInv c _ s s1 hnd hinv h1
    exact muePhase2_statsInv c now _ s1 t hnd1 hinv1 h

theorem markGarbage_statsInv (c : Config) (s : DBMState) (off : Nat)
    (r : DBMState × List Event) (hwf : WFC1 c s) (hinv : statsInv c s)
    (h : markGarbage c s off = some r) : statsInv c r.1 := by
  obtain ⟨hnd, hB, hbpe, hfresh⟩ := hwf
  obtain ⟨hT, hG⟩ := hinv
  have hblt : c.blockIndex off < c.bpe := blockIndex_lt c hB hbpe off
  simp only [markGarbage] at h
  cases hge : aGet s.entries (c.extentIndex off) with
  | none => rw [hge] at h; simp at h
  | some e =>
    simp only [hge] at h
    by_cases hbit : lget false e.garray (c.blockIndex off) = true
    · rw [if_pos hbit] at h; simp at h
    rw [if_neg hbit] at h
    have hbitf : lget false e.garray (c.blockIndex off) = false := by
      cases hv : lget false e.garray (c.blockIndex off)
      · rfl
      · exact absurd hv hbit
    by_cases hlen : (lset e.garray (c.blockIndex off) true).length ≠ c.bpe
    · rw [if_pos hlen] at h; simp at h
    rw [if_neg hlen] at h
    push_neg at hlen
    have hglen : e.garray.length = c.bpe := by
      rw [← hlen, length_lset]
    have hbltlen : c.blockIndex off < e.garray.length := by
      rw [hglen]; exact hblt
    have hcnt : bcount (lset e.garray (c.blockIndex off) true) =
        bcount e.garray + 1 := bcount_lset_true _ _ hbitf hbltlen
    have hTset := entrySum_aSet_present (contribT c) s.entries
      (c.extentIndex off) e
      { e with garray := lset e.garray (c.blockIndex off) true } hge hnd
    have hGset := entrySum_aSet_present contribG s.entries
      (c.extentIndex off) e
      { e with garray := lset e.garray (c.blockIndex off) true } hge hnd
    have hndset : keysNodup (aSet s.entries (c.extentIndex off)
        { e with garray := lset e.garray (c.blockIndex off) true }) :=
      keysNodup_aSet _ _ _ hnd
    have hgetset : aGet (aSet s.entries (c.extentIndex off)
        { e with garray := lset e.garray (c.blockIndex off) true })
        (c.extentIndex off) =
        some { e with garray := lset e.garray (c.blockIndex off) true } :=
      aGet_aSet_eq _ _ _
    have hTerase := entrySum_aErase (contribT c)
      (aSet s.entries (c.extentIndex off)
        { e with garray := lset e.garray (c.blockIndex off) true })
      (c.extentIndex off) _ hgetset hndset
    have hGerase := entrySum_aErase contribG
      (aSet s.entries (c.extentIndex off)
        { e with garray := lset e.garray (c.blockIndex off) true })
      (c.extentIndex off) _ hgetset hndset
    by_cases hfull : bcount (lset e.garray (c.blockIndex off) true) = c.bpe ∧
        ({ e with garray := lset e.garray (c.blockIndex off) true } :
          GCEntry).state ≠ .active
    · rw [if_pos hfull] at h
      cases hst : e.state with
      | reconstructing => simp only [hst] at h; simp at h
      | active => simp only [hst] at h; simp at h
      | young =>
        simp only [hst] at h
        rw [hst] at hTset hGset hTerase hGerase
        rw [Option.some.injEq] at h
        subst h
        simp only [destroyEntry]
        constructor
        · simp only []
          rw [hTerase, hTset, hT]
          simp [contribT, hst]
        · simp only []
          rw [hGerase, hGset, hG]
          simp [contribG, hst]
      | old =>
        simp only [hst] at h
        rw [hst] at hTset hGset hTerase hGerase
        rw [Option.some.injEq] at h
        subst h
        simp only [destroyEntry]
        constructor
        · simp only []
          rw [hTerase, hTset, hT]
          simp [contribT, hst]
        · simp only []
          rw [hGerase, hGset, hG]
          have hb : (bcount e.garray : Int) + 1 = (c.bpe : Int) := by
            have hq := hfull.1
            rw [hcnt] at hq
            exact_mod_cast hq
          simp [contribG, hcnt, hst]
          omega
      | inGc =>
        simp only [hst] at h
        rw [hst] at hTset hGset hTerase hGerase
        split at h
        · simp at h
        · rw [Option.some.injEq] at h
          subst h
          simp only [destroyEntry]
          constructor
          · simp only []
            rw [hTerase, hTset, hT]
            simp [contribT, hst]
          · simp only []
            rw [hGerase, hGset, hG]
            simp [contribG, hst]
    · rw [if_neg hfull] at h
      rw [Option.some.injEq] at h
      subst h
      constructor
      · simp only []
        rw [hTset, hT]
        simp [contribT]
      · simp only []
        rw [hGset, hG]
        by_cases hst : e.state = EntryState.old
        · simp only [hst, if_pos rfl]
          simp only [contribG, hst, if_pos rfl, hcnt]
          push_cast
          ring
        · rw [if_neg (by simpa using hst)]
          simp [contribG, hst]

theorem ensureActive_statsInv (c : Config) (s0 s : DBMState)
    (hwf : WFC1 c s0) (hinv : statsInv c s0)
    (h : ensureActive c s0 = some s) :
    statsInv c s ∧ keysNodup s.entries := by
  obtain ⟨hnd, hB, hbpe, hfresh⟩ := hwf
  obtain ⟨hT, hG⟩ := hinv
  unfold ensureActive at h
  cases hslot : lget none s0.activeExtents s0.nextActiveExtent with
  | some id =>
    rw [hslot] at h
    simp only [Option.some.injEq] at h
    subst h
    exact ⟨⟨hT, hG⟩, hnd⟩
  | none =>
    rw [hslot] at h
    cases hf : s0.freshExtents with
    | nil => rw [hf] at h; simp at h
    | cons f rest =>
      rw [hf] at h
      simp only [Option.some.injEq] at h
      subst h
      have hfnone : aGet s0.entries f = none :=
        hfresh f (by rw [hf]; simp)
      refine ⟨⟨?_, ?_⟩, keysNodup_aSet _ _ _ hnd⟩
      · simp only []
        rw [entrySum_aSet_absent (contribT c) s0.entries f _ hfnone]
        rw [hT]
        simp [contribT]
      · simp only []
        rw [entrySum_aSet_absent contribG s0.entries f _ hfnone]
        rw [hG]
        simp [contribG]

theorem gimme_statsInv (c : Config) (now : Nat) (s0 : DBMState)
    (r : Nat × DBMState) (hwf : WFC1 c s0) (hinv : statsInv c s0)
    (h : gimme c now s0 = some r) : statsInv c r.2 := by
  unfold gimme at h
  cases hea : ensureActive c s0 with
  | none => rw [hea] at h; simp at h
  | some s =>
    rw [hea] at h
    obtain ⟨⟨hT, hG⟩, hnd⟩ := ensureActive_statsInv c s0 s hwf hinv hea
    cases hid : lget none s.activeExtents s.nextActiveExtent with
    | none => simp only [hid] at h; simp at h
    | some id =>
      simp only [hid] at h
      cases hent : aGet s.entries id with
      | none => simp only [hent] at h; simp at h
      | some e =>
        simp only [hent] at h
        by_cases g1 : e.state ≠ EntryState.active
        · rw [if_pos g1] at h; simp at h
        rw [if_neg g1] at h
        push_neg at g1
        by_cases g2 : bcount e.garray = 0
        · rw [if_pos g2] at h; simp at h
        rw [if_neg g2] at h
        by_cases g3 : lget 0 s.blocksInActiveExtent s.nextActiveExtent ≥ c.bpe
        · rw [if_pos g3] at h; simp at h
        rw [if_neg g3] at h
        by_cases g4 : lget false e.garray
            (lget 0 s.blocksInActiveExtent s.nextActiveExtent) = false
        · rw [if_pos g4] at h; simp at h
        rw [if_neg g4] at h
        have hTset := entrySum_aSet_present (contribT c) s.entries id e
          { e with
            garray := lset e.garray
                (lget 0 s.blocksInActiveExtent s.nextActiveExtent) false }
          hent hnd
        have hGset := entrySum_aSet_present contribG s.entries id e
          { e with
            garray := lset e.garray
                (lget 0 s.blocksInActiveExtent s.nextActiveExtent) false }
          hent hnd
        by_cases g5 : lget 0 s.blocksInActiveExtent s.nextActiveExtent + 1 =
            c.bpe
        · rw [if_pos g5] at h
          by_cases g6 : bcount (lset e.garray
              (lget 0 s.blocksInActiveExtent s.nextActiveExtent) false) =
              c.bpe
          · rw [if_pos g6] at h; simp at h
          rw [if_neg g6] at h
          rw [aSet_aSet] at h
          have hTset2 := entrySum_aSet_present (contribT c) s.entries id e
            { e with
              garray := lset e.garray
                (lget 0 s.blocksInActiveExtent s.nextActiveExtent) false,
              state := .young, timestamp := now }
            hent hnd
          have hGset2 := entrySum_aSet_present contribG s.entries id e
            { e with
              garray := lset e.garray
                (lget 0 s.blocksInActiveExtent s.nextActiveExtent) false,
              state := .young, timestamp := now }
            hent hnd
          cases hmue : markUnyoungEntries c now
              { s with
                entries := aSet s.entries id
                  { e with
                    garray := lset e.garray
                      (lget 0 s.blocksInActiveExtent s.nextActiveExtent)
                      false,
                    state := .young, timestamp := now },
                blocksInActiveExtent := lset s.blocksInActiveExtent
                  s.nextActiveExtent
                  (lget 0 s.blocksInActiveExtent s.nextActiveExtent + 1),
                youngQueue := s.youngQueue ++ [id],
                activeExtents :=
                  lset s.activeExtents s.nextActiveExtent none } with
          | none => rw [hmue] at h; simp at h
          | some s2 =>
            rw [hmue] at h
            simp only [Option.some.injEq] at h
            have hmid : statsInv c
                { s with
                  entries := aSet s.entries id
                    { e with
                      garray := lset e.garray
                        (lget 0 s.blocksInActiveExtent s.nextActiveExtent)
                        false,
                      state := .young, timestamp := now },
                  blocksInActiveExtent := lset s.blocksInActiveExtent
                    s.nextActiveExtent
                    (lget 0 s.blocksInActiveExtent s.nextActiveExtent + 1),
                  youngQueue := s.youngQueue ++ [id],
                  activeExtents :=
                    lset s.activeExtents s.nextActiveExtent none } := by
              constructor
              · simp only []
                rw [hTset2, hT]
                simp [contribT, g1]
              · simp only []
                rw [hGset2, hG]
                simp [contribG, g1]
            obtain ⟨hi2, _⟩ := markUnyoungEntries_statsInv c now _ s2
              (keysNodup_aSet _ _ _ hnd) hmid hmue
            rw [← h]
            exact ⟨hi2.1, hi2.2⟩
        · rw [if_neg g5] at h
          simp only [Option.some.injEq] at h
          rw [← h]
          constructor
          · simp only []
            rw [hTset, hT]
            simp [contribT, g1]
          · simp only []
            rw [hGset, hG]
            simp [contribG, g1]

theorem runGcStep_statsInv (c : Config) (now : Nat) (s : DBMState)
    (r : DBMState × List Event) (hwf : WFC1 c s) (hinv : statsInv c s)
    (hwr : s.gcStep = .write → s.mgrState ≠ .shuttingDown)
    (h : runGcStep c now s = some r) : statsInv c r.1 := by
  obtain ⟨hnd, hB, hbpe, hfresh⟩ := hwf
  obtain ⟨hT, hG⟩ := hinv
  cases hstep : s.gcStep with
  | reconstruct =>
    simp only [runGcStep, hstep] at h
    simp at h
  | ready =>
    simp only [runGcStep, hstep] at h
    rw [Option.some.injEq] at h
    subst h
    unfold gcReadyCase
    split
    · exact ⟨hT, hG⟩
    · exact ⟨hT, hG⟩
  | readyLockAvailable =>
    simp only [runGcStep, hstep] at h
    unfold gcReadyLockAvailableCase at h
    split at h
    · rw [Option.some.injEq] at h
      subst h
      exact ⟨hT, hG⟩
    · cases hsel : pqSelect s s.gcPq with
      | none => rw [hsel] at h; simp at h
      | some victim =>
        rw [hsel] at h
        cases hge : aGet s.entries victim with
        | none => simp only [hge] at h; simp at h
        | some e =>
          simp only [hge] at h
          by_cases g1 : e.state ≠ EntryState.old
          · rw [if_pos g1] at h; simp at h
          rw [if_neg g1] at h
          push_neg at g1
          by_cases g2 : s.refcount ≠ 0
          · rw [if_pos g2] at h; simp at h
          rw [if_neg g2] at h
          by_cases g3 : (List.range c.bpe).filter
              (fun i => lget false e.garray i = false) = []
          · rw [if_pos g3] at h; simp at h
          rw [if_neg g3] at h
          rw [Option.some.injEq] at h
          subst h
          have hTset := entrySum_aSet_present (contribT c) s.entries victim e
            { e with state := .inGc } hge hnd
          have hGset := entrySum_aSet_present contribG s.entries victim e
            { e with state := .inGc } hge hnd
          constructor
          · simp only []
            rw [hTset, hT]
            simp [contribT, g1]
          · simp only []
            rw [hGset, hG]
            simp [contribG, g1]
  | read =>
    simp only [runGcStep, hstep] at h
    unfold gcReadCase at h
    split at h
    · simp at h
    · split at h <;>
        · rw [Option.some.injEq] at h
          subst h
          exact ⟨hT, hG⟩
  | readLockAvailable =>
    simp only [runGcStep, hstep] at h
    unfold gcReadLockAvailableCase at h
    cases hcur : s.currentEntry with
    | none =>
      rw [hcur] at h
      rw [Option.some.injEq] at h
      subst h
      exact ⟨hT, hG⟩
    | some victim =>
      rw [hcur] at h
      cases hge : aGet s.entries victim with
      | none => simp only [hge] at h; simp at h
      | some e =>
        simp only [hge] at h
        split at h
        · simp at h
        · rw [Option.some.injEq] at h
          subst h
          exact ⟨hT, hG⟩
  | write =>
    simp only [runGcStep, hstep] at h
    unfold gcWriteCase at h
    cases hmue : markUnyoungEntries c now s with
    | none => rw [hmue] at h; simp at h
    | some s2 =>
      rw [hmue] at h
      simp only at h
      split at h
      · simp at h
      · split at h
        · simp at h
        · obtain ⟨hi2, _⟩ := markUnyoungEntries_statsInv c now s s2 hnd
            ⟨hT, hG⟩ hmue
          have hm2 : s2.mgrState = s.mgrState :=
            (markUnyoungEntries_fields c now s s2 hmue).2.2.2.2.2.2.2.2.2.2.1
          rw [if_neg (fun hcc => (hwr hstep) (by rw [← hm2]; exact hcc))] at h
          rw [Option.some.injEq] at h
          subst h
          exact ⟨hi2.1, hi2.2⟩

theorem startExistingSlot_statsInv (c : Config) (mbOff : Option Nat)
    (mbBlocks : Nat) (s t : DBMState) (i : Nat)
    (hnd : keysNodup s.entries) (hinv : statsInv c s)
    (h : startExistingSlot c mbOff mbBlocks s i = some t) :
    statsInv c t ∧ keysNodup t.entries := by
  obtain ⟨hT, hG⟩ := hinv
  unfold startExistingSlot at h
  cases mbOff with
  | none =>
    rw [Option.some.injEq] at h
    subst h
    exact ⟨⟨hT, hG⟩, hnd⟩
  | some off =>
    simp only at h
    cases hge0 : aGet s.entries (off / c.extentSize) with
    | some e0 =>
      simp only [hge0] at h
      by_cases hrc : e0.state ≠ EntryState.reconstructing
      · rw [if_pos hrc] at h; simp at h
      rw [if_neg hrc] at h
      push_neg at hrc
      rw [Option.some.injEq] at h
      subst h
      have hTset := entrySum_aSet_present (contribT c) s.entries
        (off / c.extentSize) e0 { e0 with state := .active } hge0 hnd
      have hGset := entrySum_aSet_present contribG s.entries
        (off / c.extentSize) e0 { e0 with state := .active } hge0 hnd
      refine ⟨⟨?_, ?_⟩, keysNodup_aSet _ _ _ hnd⟩
      · simp only []
        rw [hTset, hT]
        simp [contribT, hrc]
      · simp only []
        rw [hGset, hG]
        simp [contribG, hrc]
    | none =>
      simp only [hge0] at h
      rw [show aGet (aSet s.entries (off / c.extentSize)
          { offset := off, state := .reconstructing,
            garray := List.replicate c.bpe true, timestamp := 0 })
          (off / c.extentSize) = some
          { offset := off, state := .reconstructing,
            garray := List.replicate c.bpe true, timestamp := 0 }
        from aGet_aSet_eq _ _ _] at h
      simp only at h
      rw [if_neg (by simp)] at h
      rw [Option.some.injEq] at h
      subst h
      have hnd1 : keysNodup (aSet s.entries (off / c.extentSize)
          { offset := off, state := .reconstructing,
            garray := List.replicate c.bpe true, timestamp := 0 }) :=
        keysNodup_aSet _ _ _ hnd
      have hTabs := entrySum_aSet_absent (contribT c) s.entries
        (off / c.extentSize)
        { offset := off, state := .reconstructing,
          garray := List.replicate c.bpe true, timestamp := 0 } hge0
      have hGabs := entrySum_aSet_absent contribG s.entries
        (off / c.extentSize)
        { offset := off, state := .reconstructing,
          garray := List.replicate c.bpe true, timestamp := 0 } hge0
      have hTset := entrySum_aSet_present (contribT c) _
        (off / c.extentSize)
        { offset := off, state := .reconstructing,
          garray := List.replicate c.bpe true, timestamp := 0 }
        { offset := off, state := .active,
          garray := List.replicate c.bpe true, timestamp := 0 }
        (aGet_aSet_eq _ _ _) hnd1
      have hGset := entrySum_aSet_present contribG _
        (off / c.extentSize)
        { offset := off, state := .reconstructing,
          garray := List.replicate c.bpe true, timestamp := 0 }
        { offset := off, state := .active,
          garray := List.replicate c.bpe true, timestamp := 0 }
        (aGet_aSet_eq _ _ _) hnd1
      refine ⟨⟨?_, ?_⟩, keysNodup_aSet _ _ _ hnd1⟩
      · simp only []
        rw [hTset, hTabs, hT]
        simp [contribT]
      · simp only []
        rw [hGset, hGabs, hG]
        simp [contribG]

theorem startExistingSlots_statsInv (c : Config) (mb : Metablock) :
    ∀ (n : Nat) (s t : DBMState), keysNodup s.entries → statsInv c s →
    startExistingSlots c mb s n = some t →
    statsInv c t ∧ keysNodup t.entries := by
  intro n
  induction n with
  | zero =>
    intro s t hnd hinv h
    unfold startExistingSlots at h
    rw [Option.some.injEq] at h
    subst h
    exact ⟨hinv, hnd⟩
  | succ n ih =>
    intro s t hnd hinv h
    unfold startExistingSlots at h
    cases h1 : startExistingSlots c mb s n with
    | none => rw [h1] at h; simp at h
    | some s1 =>
      rw [h1] at h
      simp only [Option.some_bind] at h
      obtain ⟨hinv1, hnd1⟩ := ih s s1 hnd hinv h1
      exact startExistingSlot_statsInv c _ _ s1 t n hnd1 hinv1 h

theorem convertReconstructedList_statsInv (c : Config) :
    ∀ (l : List Nat) (s t : DBMState), keysNodup s.entries → statsInv c s →
    convertReconstructedList c l s = some t →
    statsInv c t ∧ keysNodup t.entries := by
  intro l
  induction l with
  | nil =>
    intro s t hnd hinv h
    unfold convertReconstructedList at h
    rw [Option.some.injEq] at h
    subst h
    exact ⟨hinv, hnd⟩
  | cons id rest ih =>
    intro s t hnd hinv h
    obtain ⟨hT, hG⟩ := hinv
    unfold convertReconstructedList at h
    cases hge : aGet s.entries id with
    | none => rw [hge] at h; simp at h
    | some e =>
      simp only [hge] at h
      by_cases hrc : e.state ≠ EntryState.reconstructing
      · rw [if_pos hrc] at h; simp at h
      rw [if_neg hrc] at h
      push_neg at hrc
      have hTset := entrySum_aSet_present (contribT c) s.entries id e
        { e with state := .old } hge hnd
      have hGset := entrySum_aSet_present contribG s.entries id e
        { e with state := .old } hge hnd
      refine ih _ t (keysNodup_aSet _ _ _ hnd) ⟨?_, ?_⟩ h
      · simp only []
        rw [hTset, hT]
        simp [contribT, hrc]
      · simp only []
        rw [hGset, hG]
        simp [contribG, hrc]

theorem startExisting_statsInv (c : Config) (mb : Metablock)
    (s t : DBMState) (hnd : keysNodup s.entries) (hinv : statsInv c s)
    (h : startExisting c mb s = some t) : statsInv c t := by
  unfold startExisting at h
  split at h
  · simp at h
  · cases h1 : startExistingSlots c mb s c.maxActive with
    | none => rw [h1] at h; simp at h
    | some s1 =>
      rw [h1] at h
      simp only [Option.some_bind] at h
      obtain ⟨hinv1, hnd1⟩ := startExistingSlots_statsInv c mb c.maxActive
        s s1 hnd hinv h1
      cases h2 : convertReconstructedList c s1.reconstructedExtents
          { s1 with reconstructedExtents := [] } with
      | none => rw [h2] at h; simp at h
      | some s2 =>
        rw [h2] at h
        simp only [Option.map_some'] at h
        rw [Option.some.injEq] at h
        subst h
        obtain ⟨hinv2, _⟩ := convertReconstructedList_statsInv c
          s1.reconstructedExtents { s1 with reconstructedExtents := [] }
          s2 (by simpa using hnd1) ⟨hinv1.1, hinv1.2⟩ h2
        exact ⟨hinv2.1, hinv2.2⟩

/-- C1 amended: after each of the claim's operations (allocation, young
promotion, mark_garbage, a GC state-machine step outside the shutdown
teardown, start_existing), gc_stats.old_total_blocks equals
blocks_per_extent times the number of entries whose state is old, and
gc_stats.old_garbage_blocks equals the sum of g_array.count() over
exactly the entries whose state is old.  Entries in state in_gc do not
count: the GC step subtracts their contribution when it moves the victim
from old to in_gc. -/
theorem claim_C1_amended (c : Config) (now : Nat) (s t : DBMState)
    (hwf : WFC1 c s) (hinv : statsInv c s) (hstep : DBMStep c now s t) :
    statsInv c t := by
  cases hstep with
  | alloc s r h => exact gimme_statsInv c now s r hwf hinv h
  | mark s off r h => exact markGarbage_statsInv c s off r hwf hinv h
  | promote s t h =>
    exact (markUnyoungEntries_statsInv c now s t hwf.1 hinv h).1
  | gcstep s r hws h => exact runGcStep_statsInv c now s r hwf hinv hws h
  | startEx mb s t h => exact startExisting_statsInv c mb s t hwf.1 hinv h

/-- A manager holding one old entry with one garbage block, about to be
picked by the GC. -/
def c1pre : DBMState :=
  { wstate0 with
    entries := [(0, { offset := 0, state := .old,
                      garray := [true, false], timestamp := 0 })],
    gcPq := [0], oldTotalBlocks := 2, oldGarbageBlocks := 1,
    gcStep := .readyLockAvailable }

/-- The state after the GC pops the victim: the entry is in_gc and both
statistics were decremented. -/
def c1post : DBMState :=
  { c1pre with
    entries := [(0, { offset := 0, state := .inGc,
                      garray := [true, false], timestamp := 0 })],
    gcPq := [], currentEntry := some 0, oldTotalBlocks := 0,
    oldGarbageBlocks := 0, refcount := 1, gcStep := .read }

/-- C1 counterexample: the invariant as claimed (sums over entries in
state old or in_gc) holds before the GC pops its victim, the pop is a
legal GC step, and the claimed invariant fails afterwards: the victim is
in_gc but run_gc subtracted its blocks from both counters.  The code's
invariant, summing over old entries only, holds on both sides. -/
theorem claim_C1_counterexample :
    claimStatsInvC1 wcfg c1pre ∧
    DBMStep wcfg 0 c1pre c1post ∧
    ¬ claimStatsInvC1 wcfg c1post ∧
    statsInv wcfg c1pre ∧ statsInv wcfg c1post := by
  have hkeep : shouldWeKeepGcing wcfg c1pre = true := by
    unfold shouldWeKeepGcing garbageRatio
    norm_num [c1pre, wstate0, wcfg]
  refine ⟨by decide, ?_, by decide, by decide, by decide⟩
  refine DBMStep.gcstep c1pre
    (c1post, [Event.mutexUnlocked, Event.readIssued 1 1]) (by decide) ?_
  unfold runGcStep gcReadyLockAvailableCase
  simp only [show c1pre.gcStep = GCStepKind.readyLockAvailable from rfl]
  rw [if_neg ?_]
  · decide
  · intro hor
    rcases hor with hor | hor
    · exact absurd hor (by decide)
    · rw [hkeep] at hor
      exact absurd hor (by decide)

/-- A manager with an old entry about to receive a mark_garbage call. -/
def c1w : DBMState :=
  { wstate0 with
    entries := [(0, { offset := 0, state := .old,
                      garray := [true, false], timestamp := 0 })],
    gcPq := [0], oldTotalBlocks := 2, oldGarbageBlocks := 1,
    freshExtents := [1, 2] }

/-- The state after the C1 witness step: the old entry destroyed and both
counters zero. -/
def c1wpost : DBMState :=
  { c1w with
    entries := [], gcPq := [],
    oldTotalBlocks := 0, oldGarbageBlocks := 0 }

/-- C1 witness: marking the last live block of the old entry is a step of
the relation, the invariant holds before, and the amended theorem yields
the invariant after. -/
theorem claim_C1_witness :
    statsInv wcfg c1w ∧ WFC1 wcfg c1w ∧
    markGarbage wcfg c1w 1 = some (c1wpost, [Event.extentReleased 0]) ∧
    statsInv wcfg c1wpost := by
  refine ⟨by decide, by decide, by decide, ?_⟩
  exact claim_C1_amended wcfg 0 c1w _ (by decide) (by decide)
    (DBMStep.mark c1w 1 (c1wpost, [Event.extentReleased 0]) (by decide))

/-! ## Offset allocator distinctness (gimme_a_new_offset) -/

theorem lget_replicate {α : Type} (d a : α) :
    ∀ (n k : Nat), k < n → lget d (List.replicate n a) k = a := by
  intro n
  induction n with
  | zero => intro k hk; omega
  | succ m ih =>
    intro k hk
    cases k with
    | zero => rfl
    | succ q => exact ih q (by omega)

theorem lget_lt_length {α : Type} (d : α) (l : List α) (i : Nat)
    (h : lget d l i ≠ d) : i < l.length := by
  by_contra hc
  push_neg at hc
  exact h (lget_of_le_length d l i hc)

instance decForallOptionSome {α : Type} (o : Option α) (p : α → Prop)
    [DecidablePred p] : Decidable (∀ a, o = some a → p a) :=
  match o with
  | none => isTrue (fun _ h => nomatch h)
  | some x =>
    if h : p x then
      isTrue (fun a ha => by cases ha; exact h)
    else isFalse (fun hall => h (hall x rfl))

/-- Two in-extent block offsets coincide only for the same extent and the
same slot: byte offsets are `extent * extent_size + slot * block_size`. -/
theorem offsets_inj (c : Config) (hB : 0 < c.blockSize)
    (a k b j : Nat) (hk : k < c.bpe) (hj : j < c.bpe)
    (h : a * c.extentSize + k * c.blockSize =
      b * c.extentSize + j * c.blockSize) : a = b ∧ k = j := by
  have h2 : (c.bpe * a + k) * c.blockSize = (c.bpe * b + j) * c.blockSize := by
    have hE : c.extentSize = c.bpe * c.blockSize := rfl
    rw [hE] at h
    calc (c.bpe * a + k) * c.blockSize
        = a * (c.bpe * c.blockSize) + k * c.blockSize := by ring
      _ = b * (c.bpe * c.blockSize) + j * c.blockSize := h
      _ = (c.bpe * b + j) * c.blockSize := by ring
  have h3 : c.bpe * a + k = c.bpe * b + j :=
    Nat.eq_of_mul_eq_mul_right hB h2
  have hbpe : 0 < c.bpe := by omega
  have ha : a = b := by
    have h4 := congrArg (fun t => t / c.bpe) h3
    simpa [Nat.mul_add_div hbpe, Nat.div_eq_of_lt hk,
      Nat.div_eq_of_lt hj] using h4
  refine ⟨ha, ?_⟩
  rw [ha] at h3
  omega

/-- A slot index the do-while in gimme_a_new_offset accepts: below
num_active_data_extents or still holding a leftover entry. -/
def goodSlot (c : Config) (acts : List (Option Nat)) (n : Nat) : Prop :=
  n < c.numActive ∨ (lget none acts n).isSome = true

theorem advanceNextAux_lt (c : Config) (acts : List (Option Nat))
    (hmax : 0 < c.maxActive) :
    ∀ (fuel cur : Nat), cur < c.maxActive →
      advanceNextAux c acts fuel cur < c.maxActive := by
  intro fuel
  induction fuel with
  | zero => intro cur h; simpa [advanceNextAux] using h
  | succ n ih =>
    intro cur _
    simp only [advanceNextAux]
    by_cases hg : (cur + 1) % c.maxActive < c.numActive ∨
        (lget none acts ((cur + 1) % c.maxActive)).isSome = true
    · rw [if_pos hg]; exact Nat.mod_lt _ hmax
    · rw [if_neg hg]; exact ih _ (Nat.mod_lt _ hmax)

theorem advanceNextAux_finds (c : Config) (acts : List (Option Nat)) :
    ∀ (fuel cur : Nat),
      (∃ j, 1 ≤ j ∧ j ≤ fuel ∧ goodSlot c acts ((cur + j) % c.maxActive)) →
      goodSlot c acts (advanceNextAux c acts fuel cur) := by
  intro fuel
  induction fuel with
  | zero =>
    intro cur h
    obtain ⟨j, h1, h2, _⟩ := h
    omega
  | succ n ih =>
    intro cur h
    obtain ⟨j, h1, h2, hg⟩ := h
    simp only [advanceNextAux]
    by_cases hcond : (cur + 1) % c.maxActive < c.numActive ∨
        (lget none acts ((cur + 1) % c.maxActive)).isSome = true
    · rw [if_pos hcond]; exact hcond
    · rw [if_neg hcond]
      have hj2 : 2 ≤ j := by
        by_contra hc
        have hj1 : j = 1 := by omega
        rw [hj1] at hg
        exact hcond hg
      refine ih _ ⟨j - 1, by omega, by omega, ?_⟩
      have heq : ((cur + 1) % c.maxActive + (j - 1)) % c.maxActive =
          (cur + j) % c.maxActive := by
        rw [Nat.mod_add_mod]
        congr 1
        omega
      rw [heq]
      exact hg

theorem exists_good_j (c : Config) (acts : List (Option Nat))
    (hmax : 0 < c.maxActive) (hnum : 1 ≤ c.numActive) (cur : Nat) :
    ∃ j, 1 ≤ j ∧ j ≤ c.maxActive ∧
      goodSlot c acts ((cur + j) % c.maxActive) := by
  have hr : cur % c.maxActive < c.maxActive := Nat.mod_lt cur hmax
  refine ⟨c.maxActive - cur % c.maxActive, by omega, by omega, ?_⟩
  have hd := Nat.div_add_mod cur c.maxActive
  have hval : cur + (c.maxActive - cur % c.maxActive) =
      c.maxActive * (cur / c.maxActive + 1) := by
    rw [Nat.mul_add, Nat.mul_one]
    omega
  rw [hval, Nat.mul_mod_right]
  exact Or.inl hnum

theorem advanceNextAux_spec (c : Config) (acts : List (Option Nat))
    (hmax : 0 < c.maxActive) (hnum : 1 ≤ c.numActive) (cur : Nat)
    (hcur : cur < c.maxActive) :
    advanceNextAux c acts c.maxActive cur < c.maxActive ∧
    goodSlot c acts (advanceNextAux c acts c.maxActive cur) :=
  ⟨advanceNextAux_lt c acts hmax c.maxActive cur hcur,
   advanceNextAux_finds c acts c.maxActive cur
     (exists_good_j c acts hmax hnum cur)⟩

/-- Young promotion changes only the lifecycle state of entries, never
their garbage bitmap. -/
theorem removeLastUnyoungEntry_garray (c : Config) (s t : DBMState)
    (h : removeLastUnyoungEntry c s = some t) (id : Nat) (e : GCEntry)
    (hent : aGet s.entries id = some e) :
    ∃ e2, aGet t.entries id = some e2 ∧ e2.garray = e.garray := by
  obtain ⟨hd, rest, eh, hyq, hgh, hsth, ht⟩ :=
    removeLastUnyoungEntry_inv c s t h
  subst ht
  by_cases hid : hd = id
  · subst hid
    rw [hent] at hgh
    rw [Option.some.injEq] at hgh
    subst hgh
    exact ⟨{ e with state := .old }, aGet_aSet_eq _ _ _, rfl⟩
  · exact ⟨e, by simpa [aGet_aSet_ne s.entries hd id _ hid] using hent, rfl⟩

theorem muePhase1_garray (c : Config) :
    ∀ (fuel : Nat) (s t : DBMState), muePhase1 c fuel s = some t →
      ∀ (id : Nat) (e : GCEntry), aGet s.entries id = some e →
        ∃ e2, aGet t.entries id = some e2 ∧ e2.garray = e.garray := by
  intro fuel
  induction fuel with
  | zero =>
    intro s t h id e hent
    unfold muePhase1 at h
    split at h
    · simp at h
    · rw [Option.some.injEq] at h
      subst h
      exact ⟨e, hent, rfl⟩
  | succ n ih =>
    intro s t h id e hent
    unfold muePhase1 at h
    split at h
    · cases hr : removeLastUnyoungEntry c s with
      | none => rw [hr] at h; simp at h
      | some s1 =>
        rw [hr] at h
        simp only [Option.some_bind] at h
        obtain ⟨e1, he1, hg1⟩ :=
          removeLastUnyoungEntry_garray c s s1 hr id e hent
        obtain ⟨e2, he2, hg2⟩ := ih s1 t h id e1 he1
        exact ⟨e2, he2, hg2.trans hg1⟩
    · rw [Option.some.injEq] at h
      subst h
      exact ⟨e, hent, rfl⟩

theorem muePhase2_garray (c : Config) (now : Nat) :
    ∀ (fuel : Nat) (s t : DBMState), muePhase2 c now fuel s = some t →
      ∀ (id : Nat) (e : GCEntry), aGet s.entries id = some e →
        ∃ e2, aGet t.entries id = some e2 ∧ e2.garray = e.garray := by
  intro fuel
  induction fuel with
  | zero =>
    intro s t h id e hent
    unfold muePhase2 at h
    split at h
    · simp at h
    · rw [Option.some.injEq] at h
      subst h
      exact ⟨e, hent, rfl⟩
  | succ n ih =>
    intro s t h id e hent
    unfold muePhase2 at h
    split at h
    · cases hr : removeLastUnyoungEntry c s with
      | none => rw [hr] at h; simp at h
      | some s1 =>
        rw [hr] at h
        simp only [Option.some_bind] at h
        obtain ⟨e1, he1, hg1⟩ :=
          removeLastUnyoungEntry_garray c s s1 hr id e hent
        obtain ⟨e2, he2, hg2⟩ := ih s1 t h id e1 he1
        exact ⟨e2, he2, hg2.trans hg1⟩
    · rw [Option.some.injEq] at h
      subst h
      exact ⟨e, hent, rfl⟩

theorem markUnyoungEntries_garray (c : Config) (now : Nat) (s t : DBMState)
    (h : markUnyoungEntries c now s = some t) (id : Nat) (e : GCEntry)
    (hent : aGet s.entries id = some e) :
    ∃ e2, aGet t.entries id = some e2 ∧ e2.garray = e.garray := by
  unfold markUnyoungEntries at h
  cases h1 : muePhase1 c s.youngQueue.length s with
  | none => rw [h1] at h; simp at h
  | some s1 =>
    rw [h1] at h
    simp only [Option.some_bind] at h
    obtain ⟨e1, he1, hg1⟩ := muePhase1_garray c _ s s1 h1 id e hent
    obtain ⟨e2, he2, hg2⟩ := muePhase2_garray c now _ s1 t h id e1 he1
    exact ⟨e2, he2, hg2.trans hg1⟩

/-- What an occupied active slot guarantees: its entry is active, sits at
the extent's byte offset, has a full-length bitmap, the slot fill count is
below blocks_per_extent, every not-yet-allocated slot bit is still set
(garbage), and none of the not-yet-allocated byte offsets was ever
returned. -/
def slotOk (c : Config) (issued : List Nat) (s : DBMState) (i : Nat) :
    Prop :=
  ∀ id, lget none s.activeExtents i = some id →
    ∀ e, aGet s.entries id = some e →
      e.state = EntryState.active ∧
      e.offset = id * c.extentSize ∧
      e.garray.length = c.bpe ∧
      lget 0 s.blocksInActiveExtent i < c.bpe ∧
      (∀ k, k < c.bpe → lget 0 s.blocksInActiveExtent i ≤ k →
        lget false e.garray k = true ∧
        id * c.extentSize + k * c.blockSize ∉ issued)

instance (c : Config) (issued : List Nat) (s : DBMState) (i : Nat) :
    Decidable (slotOk c issued s i) := by
  unfold slotOk
  infer_instance

/-- Allocator invariant of gimme_a_new_offset, relative to the list of
offsets already returned in this run: well-formed configuration and slot
arrays, a usable next_active_extent, no duplicate issued offsets, every
occupied slot satisfies `slotOk`, distinct slots hold distinct extents,
and the extents the extent manager will hand out are fresh: mutually
distinct, with no issued offsets, distinct from every active extent. -/
def AllocInv (c : Config) (issued : List Nat) (s : DBMState) : Prop :=
  0 < c.blockSize ∧ 0 < c.bpe ∧ 1 ≤ c.numActive ∧
  c.numActive ≤ c.maxActive ∧
  s.activeExtents.length = c.maxActive ∧
  s.blocksInActiveExtent.length = c.maxActive ∧
  s.nextActiveExtent < c.maxActive ∧
  goodSlot c s.activeExtents s.nextActiveExtent ∧
  issued.Nodup ∧
  (∀ i, i < c.maxActive → slotOk c issued s i) ∧
  (∀ i, i < c.maxActive → ∀ j, j < c.maxActive → i ≠ j →
    ∀ id, lget none s.activeExtents i = some id →
      ∀ id2, lget none s.activeExtents j = some id2 → id ≠ id2) ∧
  s.freshExtents.Nodup ∧
  (∀ f ∈ s.freshExtents,
    (∀ k, k < c.bpe → f * c.extentSize + k * c.blockSize ∉ issued) ∧
    (∀ i, i < c.maxActive →
      ∀ id, lget none s.activeExtents i = some id → f ≠ id))

set_option synthInstance.maxHeartbeats 1000000 in
set_option synthInstance.maxSize 2048 in
instance (c : Config) (issued : List Nat) (s : DBMState) :
    Decidable (AllocInv c issued s) := by
  unfold AllocInv goodSlot
  infer_instance

/-- A run of consecutive allocations: `n` calls to gimme_a_new_offset,
collecting the returned offsets in order. -/
def allocRun (c : Config) (now : Nat) : Nat → DBMState →
    Option (List Nat × DBMState)
  | 0, s => some ([], s)
  | n + 1, s =>
    match gimme c now s with
    | none => none
    | some (off, s1) =>
      match allocRun c now n s1 with
      | none => none
      | some (offs, s2) => some (off :: offs, s2)

/-- Young promotion never creates entries. -/
theorem removeLastUnyoungEntry_absent (c : Config) (s t : DBMState)
    (h : removeLastUnyoungEntry c s = some t) (id : Nat)
    (hent : aGet s.entries id = none) : aGet t.entries id = none := by
  obtain ⟨hd, rest, eh, hyq, hgh, hsth, ht⟩ :=
    removeLastUnyoungEntry_inv c s t h
  subst ht
  by_cases hid : hd = id
  · subst hid
    rw [hent] at hgh
    exact absurd hgh (by simp)
  · rw [aGet_aSet_ne s.entries hd id _ hid]
    exact hent

theorem muePhase1_absent (c : Config) :
    ∀ (fuel : Nat) (s t : DBMState), muePhase1 c fuel s = some t →
      ∀ id, aGet s.entries id = none → aGet t.entries id = none := by
  intro fuel
  induction fuel with
  | zero =>
    intro s t h id hent
    unfold muePhase1 at h
    split at h
    · simp at h
    · rw [Option.some.injEq] at h
      subst h
      exact hent
  | succ n ih =>
    intro s t h id hent
    unfold muePhase1 at h
    split at h
    · cases hr : removeLastUnyoungEntry c s with
      | none => rw [hr] at h; simp at h
      | some s1 =>
        rw [hr] at h
        simp only [Option.some_bind] at h
        exact ih s1 t h id
          (removeLastUnyoungEntry_absent c s s1 hr id hent)
    · rw [Option.some.injEq] at h
      subst h
      exact hent

theorem muePhase2_absent (c : Config) (now : Nat) :
    ∀ (fuel : Nat) (s t : DBMState), muePhase2 c now fuel s = some t →
      ∀ id, aGet s.entries id = none → aGet t.entries id = none := by
  intro fuel
  induction fuel with
  | zero =>
    intro s t h id hent
    unfold muePhase2 at h
    split at h
    · simp at h
    · rw [Option.some.injEq] at h
      subst h
      exact hent
  | succ n ih =>
    intro s t h id hent
    unfold muePhase2 at h
    split at h
    · cases hr : removeLastUnyoungEntry c s with
      | none => rw [hr] at h; simp at h
      | some s1 =>
        rw [hr] at h
        simp only [Option.some_bind] at h
        exact ih s1 t h id
          (removeLastUnyoungEntry_absent c s s1 hr id hent)
    · rw [Option.some.injEq] at h
      subst h
      exact hent

theorem markUnyoungEntries_absent (c : Config) (now : Nat) (s t : DBMState)
    (h : markUnyoungEntries c now s = some t) (id : Nat)
    (hent : aGet s.entries id = none) : aGet t.entries id = none := by
  unfold markUnyoungEntries at h
  cases h1 : muePhase1 c s.youngQueue.length s with
  | none => rw [h1] at h; simp at h
  | some s1 =>
    rw [h1] at h
    simp only [Option.some_bind] at h
    exact muePhase2_absent c now _ s1 t h id
      (muePhase1_absent c _ s s1 h1 id hent)

/-- A block offset of a different extent or a different slot stays absent
from the issued list after the allocator returns `off`. -/
theorem notin_cons_alloc (c : Config) (issued : List Nat)
    (hB : 0 < c.blockSize) (off id2 k id bia : Nat)
    (hoffeq : off = id * c.extentSize + bia * c.blockSize)
    (hk : k < c.bpe) (hbia : bia < c.bpe) (hne : id2 ≠ id ∨ k ≠ bia)
    (hnot : id2 * c.extentSize + k * c.blockSize ∉ issued) :
    id2 * c.extentSize + k * c.blockSize ∉ off :: issued := by
  intro hmem
  rcases List.mem_cons.mp hmem with heq | hmem2
  · rw [hoffeq] at heq
    obtain ⟨h1, h2⟩ := offsets_inj c hB id2 k id bia hk hbia heq
    rcases hne with hne | hne
    · exact hne h1
    · exact hne h2
  · exact hnot hmem2

/-- The opening of gimme_a_new_offset keeps the allocator invariant and
leaves next_active_extent in place, now pointing at an occupied slot. -/
theorem ensureActive_allocInv (c : Config) (issued : List Nat)
    (s0 s : DBMState) (hinv : AllocInv c issued s0)
    (h : ensureActive c s0 = some s) :
    AllocInv c issued s ∧ s.nextActiveExtent = s0.nextActiveExtent ∧
    (lget none s.activeExtents s.nextActiveExtent).isSome = true := by
  obtain ⟨hB, hbpe, hnum, hnm, hlenA, hlenB, hnext, hD, hnd, hslots,
    hdist, hfnd, hfresh⟩ := hinv
  unfold ensureActive at h
  cases hslot : lget none s0.activeExtents s0.nextActiveExtent with
  | some id =>
    rw [hslot] at h
    rw [Option.some.injEq] at h
    subst h
    refine ⟨⟨hB, hbpe, hnum, hnm, hlenA, hlenB, hnext, hD, hnd, hslots,
      hdist, hfnd, hfresh⟩, rfl, ?_⟩
    rw [hslot]
    rfl
  | none =>
    rw [hslot] at h
    cases hf : s0.freshExtents with
    | nil => rw [hf] at h; simp at h
    | cons f rest =>
      rw [hf] at h
      rw [Option.some.injEq] at h
      subst h
      have hnextA : s0.nextActiveExtent < s0.activeExtents.length := by
        rw [hlenA]; exact hnext
      have hnextB : s0.nextActiveExtent < s0.blocksInActiveExtent.length := by
        rw [hlenB]; exact hnext
      have hslotnew : lget none
          (lset s0.activeExtents s0.nextActiveExtent (some f))
          s0.nextActiveExtent = some f :=
        lget_lset_eq none s0.activeExtents s0.nextActiveExtent _ hnextA
      have hfmem : f ∈ s0.freshExtents := by rw [hf]; exact List.mem_cons_self f rest
      have hfnotin : f ∉ rest := by
        rw [hf] at hfnd
        exact (List.nodup_cons.mp hfnd).1
      refine ⟨⟨hB, hbpe, hnum, hnm, ?_, ?_, hnext, ?_, hnd, ?_, ?_, ?_, ?_⟩,
        rfl, ?_⟩
      · simp only [length_lset]; exact hlenA
      · simp only [length_lset]; exact hlenB
      · exact Or.inr (by rw [hslotnew]; rfl)
      · -- every occupied slot is still fine
        intro i hi id hid e he
        by_cases hie : i = s0.nextActiveExtent
        · subst hie
          rw [hslotnew, Option.some.injEq] at hid
          subst hid
          rw [aGet_aSet_eq] at he
          rw [Option.some.injEq] at he
          subst he
          refine ⟨rfl, rfl, by simp, ?_, ?_⟩
          · rw [lget_lset_eq 0 s0.blocksInActiveExtent _ _ hnextB]
            exact hbpe
          · intro k hk _
            exact ⟨lget_replicate false true c.bpe k hk,
              (hfresh f hfmem).1 k hk⟩
        · have hne : s0.nextActiveExtent ≠ i := fun hh => hie hh.symm
          rw [lget_lset_ne none s0.activeExtents _ _ _ hne] at hid
          have hidf : f ≠ id := (hfresh f hfmem).2 i hi id hid
          rw [aGet_aSet_ne s0.entries f id _ hidf] at he
          have hold := hslots i hi id hid e he
          rw [lget_lset_ne 0 s0.blocksInActiveExtent _ _ _ hne]
          exact hold
      · -- distinct slots still hold distinct extents
        intro i hi j hj hij id hid id2 hid2
        by_cases hie : i = s0.nextActiveExtent
        · subst hie
          rw [hslotnew, Option.some.injEq] at hid
          subst hid
          rw [lget_lset_ne none s0.activeExtents _ _ _ hij] at hid2
          exact (hfresh f hfmem).2 j hj id2 hid2
        · have hnei : s0.nextActiveExtent ≠ i := fun hh => hie hh.symm
          rw [lget_lset_ne none s0.activeExtents _ _ _ hnei] at hid
          by_cases hje : j = s0.nextActiveExtent
          · subst hje
            rw [hslotnew, Option.some.injEq] at hid2
            subst hid2
            exact fun hh => (hfresh f hfmem).2 i hi id hid hh.symm
          · have hnej : s0.nextActiveExtent ≠ j := fun hh => hje hh.symm
            rw [lget_lset_ne none s0.activeExtents _ _ _ hnej] at hid2
            exact hdist i hi j hj hij id hid id2 hid2
      · rw [hf] at hfnd
        exact (List.nodup_cons.mp hfnd).2
      · -- remaining fresh extents stay fresh
        intro f2 hf2
        have hf2mem : f2 ∈ s0.freshExtents := by
          rw [hf]; exact List.mem_cons_of_mem f hf2
        refine ⟨(hfresh f2 hf2mem).1, ?_⟩
        intro i hi id hid
        by_cases hie : i = s0.nextActiveExtent
        · subst hie
          rw [hslotnew, Option.some.injEq] at hid
          subst hid
          exact fun hh => hfnotin (hh ▸ hf2)
        · have hne : s0.nextActiveExtent ≠ i := fun hh => hie hh.symm
          rw [lget_lset_ne none s0.activeExtents _ _ _ hne] at hid
          exact (hfresh f2 hf2mem).2 i hi id hid
      · rw [hslotnew]
        rfl

/-- One successful call to gimme_a_new_offset returns an offset never
returned before and re-establishes the allocator invariant with the new
offset recorded. -/
theorem gimme_allocInv (c : Config) (now : Nat) (issued : List Nat)
    (s0 : DBMState) (r : Nat × DBMState) (hinv : AllocInv c issued s0)
    (h : gimme c now s0 = some r) :
    r.1 ∉ issued ∧ AllocInv c (r.1 :: issued) r.2 := by
  unfold gimme at h
  cases hea : ensureActive c s0 with
  | none => rw [hea] at h; simp at h
  | some s =>
    rw [hea] at h
    obtain ⟨hinvS, hnas, hsome⟩ := ensureActive_allocInv c issued s0 s hinv hea
    obtain ⟨hB, hbpe, hnum, hnm, hlenA, hlenB, hnext, hD, hnd, hslots,
      hdist, hfnd, hfresh⟩ := hinvS
    have hmax : 0 < c.maxActive := by omega
    have hnextA : s.nextActiveExtent < s.activeExtents.length := by
      rw [hlenA]; exact hnext
    have hnextB : s.nextActiveExtent < s.blocksInActiveExtent.length := by
      rw [hlenB]; exact hnext
    cases hid : lget none s.activeExtents s.nextActiveExtent with
    | none => simp only [hid] at h; simp at h
    | some id =>
      simp only [hid] at h
      cases hent : aGet s.entries id with
      | none => simp only [hent] at h; simp at h
      | some e =>
        simp only [hent] at h
        by_cases g1 : e.state ≠ EntryState.active
        · rw [if_pos g1] at h; simp at h
        rw [if_neg g1] at h
        push_neg at g1
        by_cases g2 : bcount e.garray = 0
        · rw [if_pos g2] at h; simp at h
        rw [if_neg g2] at h
        by_cases g3 : lget 0 s.blocksInActiveExtent s.nextActiveExtent ≥ c.bpe
        · rw [if_pos g3] at h; simp at h
        rw [if_neg g3] at h
        push_neg at g3
        by_cases g4 : lget false e.garray
            (lget 0 s.blocksInActiveExtent s.nextActiveExtent) = false
        · rw [if_pos g4] at h; simp at h
        rw [if_neg g4] at h
        obtain ⟨hstA, hoff, hglen, hbia, hbits⟩ :=
          hslots s.nextActiveExtent hnext id hid e hent
        have hoffeq : e.offset +
            lget 0 s.blocksInActiveExtent s.nextActiveExtent * c.blockSize =
            id * c.extentSize +
            lget 0 s.blocksInActiveExtent s.nextActiveExtent * c.blockSize := by
          rw [hoff]
        have hoffnot : e.offset +
            lget 0 s.blocksInActiveExtent s.nextActiveExtent * c.blockSize ∉
            issued := by
          rw [hoff]
          exact (hbits _ g3 (le_refl _)).2
        by_cases g5 : lget 0 s.blocksInActiveExtent s.nextActiveExtent + 1 =
            c.bpe
        · -- the allocation fills the extent: deactivate and promote
          rw [if_pos g5] at h
          by_cases g6 : bcount (lset e.garray
              (lget 0 s.blocksInActiveExtent s.nextActiveExtent) false) =
              c.bpe
          · rw [if_pos g6] at h; simp at h
          rw [if_neg g6] at h
          rw [aSet_aSet] at h
          cases hmue : markUnyoungEntries c now
              { s with
                entries := aSet s.entries id
                  { e with
                    garray := lset e.garray
                      (lget 0 s.blocksInActiveExtent s.nextActiveExtent)
                      false,
                    state := .young, timestamp := now },
                blocksInActiveExtent := lset s.blocksInActiveExtent
                  s.nextActiveExtent
                  (lget 0 s.blocksInActiveExtent s.nextActiveExtent + 1),
                youngQueue := s.youngQueue ++ [id],
                activeExtents :=
                  lset s.activeExtents s.nextActiveExtent none } with
          | none => rw [hmue] at h; simp at h
          | some s2 =>
            rw [hmue] at h
            simp only [Option.some.injEq] at h
            have hflds := markUnyoungEntries_fields c now _ s2 hmue
            have hac : s2.activeExtents =
                lset s.activeExtents s.nextActiveExtent none := hflds.1
            have hbc : s2.blocksInActiveExtent =
                lset s.blocksInActiveExtent s.nextActiveExtent
                  (lget 0 s.blocksInActiveExtent s.nextActiveExtent + 1) :=
              hflds.2.1
            have hfr : s2.freshExtents = s.freshExtents :=
              hflds.2.2.2.2.2.2.2.2.2.2.2.1
            rw [← h]
            constructor
            · simp only []
              exact hoffnot
            · refine ⟨hB, hbpe, hnum, hnm, ?_, ?_, ?_, ?_, ?_, ?_, ?_,
                ?_, ?_⟩
              · simp only []
                rw [hac, length_lset]
                exact hlenA
              · simp only []
                rw [hbc, length_lset]
                exact hlenB
              · simp only []
                exact (advanceNextAux_spec c s2.activeExtents hmax hnum
                  s.nextActiveExtent hnext).1
              · simp only []
                exact (advanceNextAux_spec c s2.activeExtents hmax hnum
                  s.nextActiveExtent hnext).2
              · simp only []
                exact List.nodup_cons.mpr ⟨hoffnot, hnd⟩
              · intro i hi
                unfold slotOk
                intro id2 hid2 e2 he2
                simp only [] at hid2 he2 ⊢
                rw [hac] at hid2
                by_cases hii : i = s.nextActiveExtent
                · subst hii
                  rw [lget_lset_eq none s.activeExtents _ _ hnextA] at hid2
                  exact absurd hid2 (by simp)
                · rw [lget_lset_ne none s.activeExtents _ _ _
                    (fun hh => hii hh.symm)] at hid2
                  have hne2 : id2 ≠ id :=
                    hdist i hi s.nextActiveExtent hnext hii id2 hid2 id hid
                  cases hentOld : aGet s.entries id2 with
                  | none =>
                    have habs : aGet s2.entries id2 = none :=
                      markUnyoungEntries_absent c now _ s2 hmue id2
                        (by rw [aGet_aSet_ne s.entries id id2 _
                          (fun hh => hne2 hh.symm)]; exact hentOld)
                    rw [habs] at he2
                    exact absurd he2 (by simp)
                  | some eOld =>
                    have hold := hslots i hi id2 hid2 eOld hentOld
                    have hstne : eOld.state ≠ EntryState.young := by
                      rw [hold.1]
                      decide
                    have hpres : aGet s2.entries id2 = some eOld :=
                      markUnyoungEntries_preserves c now _ s2 id2 eOld hmue
                        (by rw [aGet_aSet_ne s.entries id id2 _
                          (fun hh => hne2 hh.symm)]; exact hentOld) hstne
                    rw [hpres, Option.some.injEq] at he2
                    subst he2
                    rw [hbc, lget_lset_ne 0 s.blocksInActiveExtent _ _ _
                      (fun hh => hii hh.symm)]
                    refine ⟨hold.1, hold.2.1, hold.2.2.1, hold.2.2.2.1, ?_⟩
                    intro k hk hk2
                    refine ⟨(hold.2.2.2.2 k hk hk2).1, ?_⟩
                    exact notin_cons_alloc c issued hB _ id2 k id _ hoffeq
                      hk g3 (Or.inl hne2) (hold.2.2.2.2 k hk hk2).2
              · intro i hi j hj hij id1 hid1 id2 hid2
                simp only [] at hid1 hid2
                rw [hac] at hid1 hid2
                by_cases hii : i = s.nextActiveExtent
                · subst hii
                  rw [lget_lset_eq none s.activeExtents _ _ hnextA] at hid1
                  exact absurd hid1 (by simp)
                · rw [lget_lset_ne none s.activeExtents _ _ _
                    (fun hh => hii hh.symm)] at hid1
                  by_cases hjj : j = s.nextActiveExtent
                  · subst hjj
                    rw [lget_lset_eq none s.activeExtents _ _ hnextA] at hid2
                    exact absurd hid2 (by simp)
                  · rw [lget_lset_ne none s.activeExtents _ _ _
                      (fun hh => hjj hh.symm)] at hid2
                    exact hdist i hi j hj hij id1 hid1 id2 hid2
              · simp only []
                rw [hfr]
                exact hfnd
              · simp only []
                rw [hfr]
                intro f hf
                refine ⟨?_, ?_⟩
                · intro k hk
                  exact notin_cons_alloc c issued hB _ f k id _ hoffeq
                    hk g3 (Or.inl ((hfresh f hf).2 s.nextActiveExtent hnext
                      id hid)) ((hfresh f hf).1 k hk)
                · intro i hi id2 hid2
                  rw [hac] at hid2
                  by_cases hii : i = s.nextActiveExtent
                  · subst hii
                    rw [lget_lset_eq none s.activeExtents _ _ hnextA] at hid2
                    exact absurd hid2 (by simp)
                  · rw [lget_lset_ne none s.activeExtents _ _ _
                      (fun hh => hii hh.symm)] at hid2
                    exact (hfresh f hf).2 i hi id2 hid2
        · -- the common case: bump the fill count, clear the bit
          rw [if_neg g5] at h
          simp only [Option.some.injEq] at h
          rw [← h]
          constructor
          · simp only []
            exact hoffnot
          · refine ⟨hB, hbpe, hnum, hnm, ?_, ?_, ?_, ?_, ?_, ?_, ?_,
              ?_, ?_⟩
            · simp only []
              exact hlenA
            · simp only []
              rw [length_lset]
              exact hlenB
            · simp only []
              exact (advanceNextAux_spec c s.activeExtents hmax hnum
                s.nextActiveExtent hnext).1
            · simp only []
              exact (advanceNextAux_spec c s.activeExtents hmax hnum
                s.nextActiveExtent hnext).2
            · simp only []
              exact List.nodup_cons.mpr ⟨hoffnot, hnd⟩
            · intro i hi
              unfold slotOk
              intro id2 hid2 e2 he2
              simp only [] at hid2 he2 ⊢
              by_cases hii : i = s.nextActiveExtent
              · subst hii
                rw [hid, Option.some.injEq] at hid2
                subst hid2
                rw [aGet_aSet_eq, Option.some.injEq] at he2
                subst he2
                simp only []
                rw [lget_lset_eq 0 s.blocksInActiveExtent _ _ hnextB,
                  length_lset]
                refine ⟨g1, hoff, hglen, by omega, ?_⟩
                intro k hk hk2
                rw [lget_lset_ne false e.garray
                  (lget 0 s.blocksInActiveExtent s.nextActiveExtent) k false
                  (by omega)]
                refine ⟨(hbits k hk (by omega)).1, ?_⟩
                exact notin_cons_alloc c issued hB _ id k id _ hoffeq
                  hk g3 (Or.inr (by omega)) (hbits k hk (by omega)).2
              · have hne2 : id2 ≠ id :=
                  hdist i hi s.nextActiveExtent hnext hii id2 hid2 id hid
                rw [aGet_aSet_ne s.entries id id2 _
                  (fun hh => hne2 hh.symm)] at he2
                have hold := hslots i hi id2 hid2 e2 he2
                rw [lget_lset_ne 0 s.blocksInActiveExtent _ _ _
                  (fun hh => hii hh.symm)]
                refine ⟨hold.1, hold.2.1, hold.2.2.1, hold.2.2.2.1, ?_⟩
                intro k hk hk2
                refine ⟨(hold.2.2.2.2 k hk hk2).1, ?_⟩
                exact notin_cons_alloc c issued hB _ id2 k id _ hoffeq
                  hk g3 (Or.inl hne2) (hold.2.2.2.2 k hk hk2).2
            · intro i hi j hj hij id1 hid1 id2 hid2
              simp only [] at hid1 hid2
              exact hdist i hi j hj hij id1 hid1 id2 hid2
            · simp only []
              exact hfnd
            · simp only []
              intro f hf
              refine ⟨?_, ?_⟩
              · intro k hk
                exact notin_cons_alloc c issued hB _ f k id _ hoffeq
                  hk g3 (Or.inl ((hfresh f hf).2 s.nextActiveExtent hnext
                    id hid)) ((hfresh f hf).1 k hk)
              · intro i hi id2 hid2
                exact (hfresh f hf).2 i hi id2 hid2

/-- Across a whole allocation run the returned offsets avoid everything
issued before and never repeat. -/
theorem allocRun_allocInv (c : Config) (now : Nat) :
    ∀ (n : Nat) (issued : List Nat) (s : DBMState)
      (r : List Nat × DBMState), AllocInv c issued s →
      allocRun c now n s = some r →
      (∀ off ∈ r.1, off ∉ issued) ∧ (r.1 ++ issued).Nodup := by
  intro n
  induction n with
  | zero =>
    intro issued s r hinv h
    unfold allocRun at h
    rw [Option.some.injEq] at h
    subst h
    refine ⟨by simp, ?_⟩
    simp only [List.nil_append]
    exact hinv.2.2.2.2.2.2.2.2.1
  | succ n ih =>
    intro issued s r hinv h
    unfold allocRun at h
    cases hg : gimme c now s with
    | none => rw [hg] at h; simp at h
    | some p =>
      rw [hg] at h
      obtain ⟨off, s1⟩ := p
      simp only [] at h
      cases hrec : allocRun c now n s1 with
      | none => rw [hrec] at h; simp at h
      | some q =>
        rw [hrec] at h
        obtain ⟨offs, s2⟩ := q
        simp only [] at h
        rw [Option.some.injEq] at h
        subst h
        obtain ⟨hnot1, hinv1⟩ :=
          gimme_allocInv c now issued s (off, s1) hinv hg
        obtain ⟨hall, hnd2⟩ := ih (off :: issued) s1 (offs, s2) hinv1 hrec
        constructor
        · intro o ho
          rcases List.mem_cons.mp ho with rfl | ho2
          · exact hnot1
          · intro hmem
            exact hall o ho2 (List.mem_cons_of_mem off hmem)
        · have hperm : (offs ++ off :: issued).Perm
              (off :: (offs ++ issued)) := List.perm_middle
          exact hperm.nodup hnd2

/-- Every successful call clears the garbage bit of the slot it returns:
the bit of the chosen slot in the active entry's bitmap is 1 when the
offset is computed and 0 in the state the call returns. -/
theorem gimme_bit (c : Config) (now : Nat) (s0 : DBMState)
    (r : Nat × DBMState) (h : gimme c now s0 = some r) :
    ∃ s id e, ensureActive c s0 = some s ∧
      lget none s.activeExtents s.nextActiveExtent = some id ∧
      aGet s.entries id = some e ∧
      r.1 = e.offset +
        lget 0 s.blocksInActiveExtent s.nextActiveExtent * c.blockSize ∧
      lget false e.garray
        (lget 0 s.blocksInActiveExtent s.nextActiveExtent) = true ∧
      ∀ e2, aGet r.2.entries id = some e2 →
        lget false e2.garray
          (lget 0 s.blocksInActiveExtent s.nextActiveExtent) = false := by
  unfold gimme at h
  cases hea : ensureActive c s0 with
  | none => rw [hea] at h; simp at h
  | some s =>
    rw [hea] at h
    cases hid : lget none s.activeExtents s.nextActiveExtent with
    | none => simp only [hid] at h; simp at h
    | some id =>
      simp only [hid] at h
      cases hent : aGet s.entries id with
      | none => simp only [hent] at h; simp at h
      | some e =>
        simp only [hent] at h
        by_cases g1 : e.state ≠ EntryState.active
        · rw [if_pos g1] at h; simp at h
        rw [if_neg g1] at h
        by_cases g2 : bcount e.garray = 0
        · rw [if_pos g2] at h; simp at h
        rw [if_neg g2] at h
        by_cases g3 : lget 0 s.blocksInActiveExtent s.nextActiveExtent ≥ c.bpe
        · rw [if_pos g3] at h; simp at h
        rw [if_neg g3] at h
        by_cases g4 : lget false e.garray
            (lget 0 s.blocksInActiveExtent s.nextActiveExtent) = false
        · rw [if_pos g4] at h; simp at h
        rw [if_neg g4] at h
        have hbitT : lget false e.garray
            (lget 0 s.blocksInActiveExtent s.nextActiveExtent) = true := by
          cases hq : lget false e.garray
              (lget 0 s.blocksInActiveExtent s.nextActiveExtent)
          · exact absurd hq g4
          · rfl
        have hlt : lget 0 s.blocksInActiveExtent s.nextActiveExtent <
            e.garray.length :=
          lget_lt_length false e.garray _ (by rw [hbitT]; simp)
        by_cases g5 : lget 0 s.blocksInActiveExtent s.nextActiveExtent + 1 =
            c.bpe
        · rw [if_pos g5] at h
          by_cases g6 : bcount (lset e.garray
              (lget 0 s.blocksInActiveExtent s.nextActiveExtent) false) =
              c.bpe
          · rw [if_pos g6] at h; simp at h
          rw [if_neg g6] at h
          rw [aSet_aSet] at h
          cases hmue : markUnyoungEntries c now
              { s with
                entries := aSet s.entries id
                  { e with
                    garray := lset e.garray
                      (lget 0 s.blocksInActiveExtent s.nextActiveExtent)
                      false,
                    state := .young, timestamp := now },
                blocksInActiveExtent := lset s.blocksInActiveExtent
                  s.nextActiveExtent
                  (lget 0 s.blocksInActiveExtent s.nextActiveExtent + 1),
                youngQueue := s.youngQueue ++ [id],
                activeExtents :=
                  lset s.activeExtents s.nextActiveExtent none } with
          | none => rw [hmue] at h; simp at h
          | some s2 =>
            rw [hmue] at h
            simp only [Option.some.injEq] at h
            obtain ⟨e3, he3, hg3⟩ := markUnyoungEntries_garray c now _ s2
              hmue id
              { e with
                garray := lset e.garray
                  (lget 0 s.blocksInActiveExtent s.nextActiveExtent) false,
                state := .young, timestamp := now }
              (by exact aGet_aSet_eq _ _ _)
            refine ⟨s, id, e, rfl, hid, hent, ?_, hbitT, ?_⟩
            · rw [← h]
            · intro e2 he2
              rw [← h] at he2
              simp only [] at he2
              rw [he3, Option.some.injEq] at he2
              subst he2
              rw [hg3]
              exact lget_lset_eq false e.garray _ false hlt
        · rw [if_neg g5] at h
          simp only [Option.some.injEq] at h
          refine ⟨s, id, e, rfl, hid, hent, ?_, hbitT, ?_⟩
          · rw [← h]
          · intro e2 he2
            rw [← h] at he2
            simp only [] at he2
            rw [aGet_aSet_eq, Option.some.injEq] at he2
            subst he2
            simp only []
            exact lget_lset_eq false e.garray _ false hlt

/-- C4: offsets handed out by gimme_a_new_offset are pairwise distinct
within a run — starting from any state satisfying the allocator invariant
with an empty issued list, the offsets collected by any number of
consecutive successful calls contain no duplicate — and each successful
call returns the offset of the slot `blocks_in_active_extent` of the
active entry at `next_active_extent`, whose garbage bit is 1 when the
offset is chosen and 0 in the entry table of the state the call
returns. -/
theorem claim_C4 (c : Config) (now : Nat) :
    (∀ (n : Nat) (s : DBMState) (r : List Nat × DBMState),
      AllocInv c [] s → allocRun c now n s = some r → r.1.Nodup) ∧
    (∀ (s0 : DBMState) (r : Nat × DBMState), gimme c now s0 = some r →
      ∃ s id e, ensureActive c s0 = some s ∧
        lget none s.activeExtents s.nextActiveExtent = some id ∧
        aGet s.entries id = some e ∧
        r.1 = e.offset +
          lget 0 s.blocksInActiveExtent s.nextActiveExtent * c.blockSize ∧
        lget false e.garray
          (lget 0 s.blocksInActiveExtent s.nextActiveExtent) = true ∧
        ∀ e2, aGet r.2.entries id = some e2 →
          lget false e2.garray
            (lget 0 s.blocksInActiveExtent s.nextActiveExtent) = false) := by
  constructor
  · intro n s r hinv h
    have hnd := (allocRun_allocInv c now n [] s r hinv h).2
    rw [List.append_nil] at hnd
    exact hnd
  · intro s0 r h
    exact gimme_bit c now s0 r h

/-- The outcome of a run of four allocations from the witness state. -/
def c4r : List Nat × DBMState :=
  (allocRun wcfg 5 4 wstate0).getD ([], wstate0)

/-- C4 witness: the allocator invariant holds in the fresh witness state,
a run of four allocations succeeds with offsets 0, 1, 2, 3, and the claim
theorem yields their distinctness. -/
theorem claim_C4_witness :
    AllocInv wcfg [] wstate0 ∧
    allocRun wcfg 5 4 wstate0 = some c4r ∧ c4r.1 = [0, 1, 2, 3] ∧
    c4r.1.Nodup :=
  ⟨by decide, by decide, by decide,
    (claim_C4 wcfg 5).1 4 wstate0 c4r (by decide) (by decide)⟩

end DBM
